import Mathlib

/-!
# BufferSwapperDouble

Shallow embedding of `src/src/compositor/buffer_swapper_double.cpp`.

* A `std::shared_ptr<Buffer>` is a `BufferPtr`: `none` is the null pointer,
  `some b` points to the buffer with identity `b`.
* Every operation runs under `swapper_mutex`, so an operation is one atomic
  transition of the three member variables.
* A `while (cond) cv.wait(lk)` loop is a guard: when `cond` holds on entry the
  call cannot complete by itself (it waits for another thread), which the
  embedding renders as the result `none`.  Operations without such a loop are
  total functions.
-/

/-- Identity of a graphics buffer. -/
abbrev Buffer := Nat

/-- A `std::shared_ptr<Buffer>`: `none` is the null pointer. -/
abbrev BufferPtr := Option Buffer

/-- Member variables of `mc::BufferSwapperDouble`. -/
structure BufferSwapperDouble where
  compositor_has_consumed : Bool
  client_queue : BufferPtr
  last_posted_buffer : BufferPtr
deriving DecidableEq

namespace BufferSwapperDouble

/-- Constructor `BufferSwapperDouble(buf_a, buf_b)`. -/
def ctor (buf_a buf_b : BufferPtr) : BufferSwapperDouble :=
  { compositor_has_consumed := true
    client_queue := buf_a
    last_posted_buffer := buf_b }

/-- Method `client_acquire()`: waits while `client_queue` is null, then moves
`client_queue` out (the moved-from pointer is left null). -/
def client_acquire (s : BufferSwapperDouble) : Option (BufferPtr × BufferSwapperDouble) :=
  if s.client_queue = none then
    none
  else
    some (s.client_queue, { s with client_queue := none })

/-- Method `client_release(queued_buffer)`: waits while `compositor_has_consumed`
is false, clears the flag, copies a non-null `last_posted_buffer` into
`client_queue`, then stores `queued_buffer` in `last_posted_buffer`. -/
def client_release (s : BufferSwapperDouble) (queued_buffer : BufferPtr) :
    Option BufferSwapperDouble :=
  if !s.compositor_has_consumed then
    none
  else
    let s1 := { s with compositor_has_consumed := false }
    let s2 :=
      if s1.last_posted_buffer ≠ none then
        { s1 with client_queue := s1.last_posted_buffer }
      else
        s1
    some { s2 with last_posted_buffer := queued_buffer }

/-- Method `compositor_acquire()`: sets `compositor_has_consumed`, then moves
`last_posted_buffer` out (the moved-from pointer is left null). -/
def compositor_acquire (s : BufferSwapperDouble) : BufferPtr × BufferSwapperDouble :=
  let s1 := { s with compositor_has_consumed := true }
  (s1.last_posted_buffer, { s1 with last_posted_buffer := none })

/-- Method `compositor_release(released_buffer)`: stores the buffer in
`last_posted_buffer` when that is null, otherwise in `client_queue`. -/
def compositor_release (s : BufferSwapperDouble) (released_buffer : BufferPtr) :
    BufferSwapperDouble :=
  if s.last_posted_buffer = none then
    { s with last_posted_buffer := released_buffer }
  else
    { s with client_queue := released_buffer }

end BufferSwapperDouble

/-- One call of a `BufferSwapperDouble` method, with its argument. -/
inductive Call where
  | client_acquire
  | client_release (queued_buffer : BufferPtr)
  | compositor_acquire
  | compositor_release (released_buffer : BufferPtr)
deriving DecidableEq

namespace Call

/-- Executes one call.  `none`: the call waits on its condition variable and
does not complete.  Otherwise the returned pointer (`none` for the two `void`
methods, `some p` for a method returning the pointer `p`) and the next state. -/
def exec (c : Call) (s : BufferSwapperDouble) :
    Option (Option BufferPtr × BufferSwapperDouble) :=
  match c with
  | client_acquire =>
    match s.client_acquire with
    | none => none
    | some (p, s1) => some (some p, s1)
  | client_release queued_buffer =>
    match s.client_release queued_buffer with
    | none => none
    | some s1 => some (none, s1)
  | compositor_acquire =>
    let (p, s1) := s.compositor_acquire
    some (some p, s1)
  | compositor_release released_buffer =>
    some (none, s.compositor_release released_buffer)

/-- A call is enabled in a state when it completes without waiting. -/
def enabled (c : Call) (s : BufferSwapperDouble) : Bool :=
  (c.exec s).isSome

end Call

/-- Executes a sequence of calls one after the other; `none` as soon as one of
them does not complete.  Returns the values the calls returned, in order, and
the final state. -/
def run : List Call → BufferSwapperDouble →
    Option (List (Option BufferPtr) × BufferSwapperDouble)
  | [], s => some ([], s)
  | c :: cs, s =>
    match c.exec s with
    | none => none
    | some (r, s1) =>
      match run cs s1 with
      | none => none
      | some (rs, s2) => some (r :: rs, s2)

/-- Number of `client_release` calls in a sequence. -/
def countClientRelease : List Call → Nat
  | [] => 0
  | Call.client_release _ :: cs => countClientRelease cs + 1
  | _ :: cs => countClientRelease cs

/-- Number of `compositor_acquire` calls in a sequence. -/
def countCompositorAcquire : List Call → Nat
  | [] => 0
  | Call.compositor_acquire :: cs => countCompositorAcquire cs + 1
  | _ :: cs => countCompositorAcquire cs

/-- Outstanding frames: 1 while `compositor_has_consumed` is false, else 0. -/
def outstanding (s : BufferSwapperDouble) : Nat :=
  if s.compositor_has_consumed then 0 else 1

/-- Argument of the last `client_release` call of a sequence, if there is one. -/
def lastClientRelease : List Call → Option BufferPtr
  | [] => none
  | c :: cs =>
    match lastClientRelease cs with
    | some p => some p
    | none =>
      match c with
      | Call.client_release p => some p
      | _ => none

/-- The swapper together with the buffer each of its two users holds: the
client between `client_acquire` and `client_release`, the compositor between
`compositor_acquire` and `compositor_release`. -/
structure System where
  swapper : BufferSwapperDouble
  client_held : BufferPtr
  compositor_held : BufferPtr
deriving DecidableEq

namespace System

/-- The system right after `BufferSwapperDouble(A, B)`: nobody holds a buffer. -/
def init (A B : Buffer) : System :=
  { swapper := BufferSwapperDouble.ctor (some A) (some B)
    client_held := none
    compositor_held := none }

/-- One call made according to the usage protocol: a role acquires only while
it holds nothing and releases exactly the (non-null) buffer it holds.  `none`
when the call is against the protocol or does not complete. -/
def step (sys : System) (c : Call) : Option System :=
  match c with
  | Call.client_acquire =>
    if sys.client_held = none then
      match sys.swapper.client_acquire with
      | none => none
      | some (p, s1) => some { sys with swapper := s1, client_held := p }
    else none
  | Call.client_release queued_buffer =>
    if queued_buffer ≠ none ∧ sys.client_held = queued_buffer then
      match sys.swapper.client_release queued_buffer with
      | none => none
      | some s1 => some { sys with swapper := s1, client_held := none }
    else none
  | Call.compositor_acquire =>
    if sys.compositor_held = none then
      let (p, s1) := sys.swapper.compositor_acquire
      some { sys with swapper := s1, compositor_held := p }
    else none
  | Call.compositor_release released_buffer =>
    if released_buffer ≠ none ∧ sys.compositor_held = released_buffer then
      some { sys with swapper := sys.swapper.compositor_release released_buffer,
                      compositor_held := none }
    else none

/-- A sequence of protocol-respecting calls, executed one after the other. -/
def run : List Call → System → Option System
  | [], sys => some sys
  | c :: cs, sys =>
    match sys.step c with
    | none => none
    | some sys1 => run cs sys1

/-- The non-null buffers found in the four places, in the order `client_queue`,
`last_posted_buffer`, held by the client, held by the compositor. -/
def places (sys : System) : List Buffer :=
  [sys.swapper.client_queue, sys.swapper.last_posted_buffer,
    sys.client_held, sys.compositor_held].reduceOption

/-- The frame to show: `last_posted_buffer`, or while that is null the buffer
the compositor holds. -/
def latest (sys : System) : BufferPtr :=
  if sys.swapper.last_posted_buffer ≠ none then sys.swapper.last_posted_buffer
  else sys.compositor_held

end System

/-! # LayerList

Shallow embedding of `src/src/platform/graphics/android/hwc_layerlist.cpp`.

* A native list (`hwc_display_contents_1_t`) allocated by `generate_hwc_list`
  is a record of its header fields together with `id`, the number of the
  allocation that produced it: two lists are the same object exactly when
  their `id`s agree.  `LayerListBase.allocations` counts the allocations made
  so far and supplies the next `id`.
* A call whose behaviour the C++ leaves undefined (a list iterator advanced to
  `end()` and dereferenced, `back()` of an empty list) has the result `none`.
* The counter `auto i = 0u` is a natural number: on the 32-bit target `size_t`
  and `unsigned` have the same width, so `i` never exceeds `needed_size` or
  the length of the render list and does not wrap.
-/

/-- Value of a `geometry::Rectangle`: top-left corner and size. -/
structure Rectangle where
  x : Int
  y : Int
  width : Nat
  height : Nat
deriving DecidableEq

/-- Values of `mga::LayerType` that `hwc_layerlist.cpp` uses. -/
inductive LayerType where
  | gl_rendered
  | skip
deriving DecidableEq

/-- What `update_representation` reads from a `mg::Renderable`: the results of
`screen_position()`, `alpha_enabled()` and `buffer()` (the buffer by identity). -/
structure Renderable where
  screen_position : Rectangle
  alpha_enabled : Bool
  buffer : Buffer
deriving DecidableEq

/-- The flag `HWC_GEOMETRY_CHANGED` of the Android hwcomposer header. -/
def HWC_GEOMETRY_CHANGED : Nat := 1

/-- Targets of the `dpy` and `sur` pointers of a native list. -/
inductive EglPtr where
  | null
  | fake_egl_values
deriving DecidableEq

/-- Header of a native list `hwc_display_contents_1_t`, with the identity `id`
of the allocation. -/
structure hwc_display_contents_1_t where
  id : Nat
  numHwLayers : Nat
  retireFenceFd : Int
  flags : Nat
  dpy : EglPtr
  sur : EglPtr
deriving DecidableEq

/-- Function `generate_hwc_list(needed_size)`; `id` is the identity of the
object that `operator new` returns. -/
def generate_hwc_list (id : Nat) (needed_size : Nat) : hwc_display_contents_1_t :=
  { id := id
    numHwLayers := needed_size
    retireFenceFd := -1
    flags := HWC_GEOMETRY_CHANGED
    dpy := EglPtr.fake_egl_values
    sur := EglPtr.fake_egl_values }

/-- Modelled from the spec: class `HWCLayer`, the per-layer wrapper, whose
source is not under `src/`.  A wrapper carries its layer type, its render
parameters (screen position, alpha blending flag), its buffer, the native list
and the position in it that it is linked to, and whether its last update
requires a hardware commit. -/
structure HWCLayer where
  layer_type : LayerType
  screen_position : Rectangle
  alpha_enabled : Bool
  buffer : Option Buffer
  hwc_list : Nat
  layer_index : Nat
  needs_commit : Bool
deriving DecidableEq

namespace HWCLayer

/-- Modelled from the spec: constructor `HWCLayer(list, layer_index)`, a
padding wrapper: tagged as a non-content skip layer and linked to its position
in the native list. -/
def ctor (hwc_list : Nat) (layer_index : Nat) : HWCLayer :=
  { layer_type := LayerType.skip
    screen_position := ⟨0, 0, 0, 0⟩
    alpha_enabled := false
    buffer := none
    hwc_list := hwc_list
    layer_index := layer_index
    needs_commit := false }

/-- Modelled from the spec: `HWCLayer::set_layer_type(type)` tags the wrapper. -/
def set_layer_type (w : HWCLayer) (type : LayerType) : HWCLayer :=
  { w with layer_type := type }

/-- Modelled from the spec: `HWCLayer::set_render_parameters(position, alpha)`
updates the render parameters; the update requires a commit when it changes
the state of the layer. -/
def set_render_parameters (w : HWCLayer) (position : Rectangle) (alpha_enabled : Bool) :
    HWCLayer :=
  { w with
    screen_position := position
    alpha_enabled := alpha_enabled
    needs_commit := decide (w.screen_position ≠ position ∨ w.alpha_enabled ≠ alpha_enabled) }

/-- Modelled from the spec: `HWCLayer::set_buffer(buffer)` updates the buffer;
the update requires a commit when the content changes, not when the same
buffer is set again. -/
def set_buffer (w : HWCLayer) (buffer : Buffer) : HWCLayer :=
  { w with
    buffer := some buffer
    needs_commit := w.needs_commit || decide (w.buffer ≠ some buffer) }

/-- Modelled from the spec: `HWCLayer::needs_hwc_commit()`, whether the last
update of this layer changed its content or state. -/
def needs_hwc_commit (w : HWCLayer) : Bool :=
  w.needs_commit

/-- Modelled from the spec: constructor
`HWCLayer(type, position, alpha_enabled, list, layer_index)`: a wrapper of the
given type with the given render parameters, linked to its position. -/
def ctor_typed (type : LayerType) (position : Rectangle) (alpha_enabled : Bool)
    (hwc_list : Nat) (layer_index : Nat) : HWCLayer :=
  ((ctor hwc_list layer_index).set_layer_type type).set_render_parameters position alpha_enabled

end HWCLayer

/-- Member variables of `mga::LayerListBase`; `allocations` is the number of
native lists allocated so far. -/
structure LayerListBase where
  hwc_representation : hwc_display_contents_1_t
  layers : List HWCLayer
  any_buffer_updated : Bool
  allocations : Nat
deriving DecidableEq

namespace LayerListBase

/-- The loop of the branch `layers.size() == needed_size`: walks `layers` and
the render list together, updating each wrapper from its renderable and
or-ing `needs_hwc_commit()` into the flag.  `none` when the render list is
longer than `layers` (the iterator is dereferenced at `end()`). -/
def update_layers : List HWCLayer → List Renderable → Bool → Option (List HWCLayer × Bool)
  | layers, [], any_buffer_updated => some (layers, any_buffer_updated)
  | [], _ :: _, _ => none
  | w :: ws, renderable :: rest, any_buffer_updated =>
    let w1 := w.set_render_parameters renderable.screen_position renderable.alpha_enabled
    let w2 := w1.set_buffer renderable.buffer
    match update_layers ws rest (any_buffer_updated || w2.needs_hwc_commit) with
    | none => none
    | some (ws1, any1) => some (w2 :: ws1, any1)

/-- The first loop of the rebuild branch: one `gl_rendered` wrapper per
renderable, linked to index `i`, `i + 1`, ... of the native list. -/
def emplace_renderables (hwc_list : Nat) : List Renderable → Nat → List HWCLayer
  | [], _ => []
  | renderable :: rest, i =>
    (HWCLayer.ctor_typed LayerType.gl_rendered renderable.screen_position
        renderable.alpha_enabled hwc_list i).set_buffer renderable.buffer ::
      emplace_renderables hwc_list rest (i + 1)

/-- The second loop of the rebuild branch, `for(; i < needed_size; i++)`, run
for `count = needed_size - i` iterations: padding wrappers for index `i`,
`i + 1`, ... -/
def emplace_padding (hwc_list : Nat) : Nat → Nat → List HWCLayer
  | 0, _ => []
  | count + 1, i => HWCLayer.ctor hwc_list i :: emplace_padding hwc_list count (i + 1)

/-- Method `LayerListBase::update_representation(needed_size, renderlist)`.
In the rebuild branch the counter `i` starts at 0 and is incremented once per
renderable, so it equals the length of the render list when the padding loop
starts. -/
def update_representation (self : LayerListBase) (needed_size : Nat)
    (renderlist : List Renderable) : Option LayerListBase :=
  let s1 := { self with any_buffer_updated := false }
  let s2 :=
    if s1.hwc_representation.numHwLayers ≠ needed_size then
      { s1 with
        hwc_representation := generate_hwc_list s1.allocations needed_size
        allocations := s1.allocations + 1 }
    else
      s1
  if s2.layers.length = needed_size then
    match update_layers s2.layers renderlist s2.any_buffer_updated with
    | none => none
    | some (layers, any) => some { s2 with layers := layers, any_buffer_updated := any }
  else
    let s3 := { s2 with any_buffer_updated := true }
    let i := renderlist.length
    let new_layers :=
      emplace_renderables s3.hwc_representation.id renderlist 0 ++
        emplace_padding s3.hwc_representation.id (needed_size - i) i
    some { s3 with layers := new_layers }

/-- Method `LayerListBase::list_has_changed()`. -/
def list_has_changed (self : LayerListBase) : Bool :=
  self.any_buffer_updated

/-- Method `LayerListBase::native_list()`. -/
def native_list (self : LayerListBase) : hwc_display_contents_1_t :=
  self.hwc_representation

/-- Method `LayerListBase::retirement_fence()`. -/
def retirement_fence (self : LayerListBase) : Int :=
  self.hwc_representation.retireFenceFd

/-- Constructor `LayerListBase(initial_list_size)`: allocates the first native
list, then updates with an empty render list.  `layers` starts empty;
`any_buffer_updated` starts uninitialised and is written by the update before
it is read. -/
def ctor (initial_list_size : Nat) : Option LayerListBase :=
  update_representation
    { hwc_representation := generate_hwc_list 0 initial_list_size
      layers := []
      any_buffer_updated := false
      allocations := 1 }
    initial_list_size []

/-- The wrappers of a list are linked, position by position, to the entries of
its current native list, one wrapper per entry. -/
def positional (self : LayerListBase) : Prop :=
  self.layers.map (fun w => (w.hwc_list, w.layer_index)) =
    (List.range self.hwc_representation.numHwLayers).map
      (fun k => (self.hwc_representation.id, k))

instance (self : LayerListBase) : Decidable self.positional := by
  unfold positional
  exact inferInstance

end LayerListBase

namespace LayerList

/-- Constructor `LayerList()`: a `LayerListBase` of size 1 whose last wrapper
is then given the type `skip`.  `none` when `layers` is empty (`back()` of an
empty list). -/
def ctor : Option LayerListBase :=
  match LayerListBase.ctor 1 with
  | none => none
  | some self =>
    match self.layers.getLast? with
    | none => none
    | some w =>
      some { self with layers := self.layers.dropLast ++ [w.set_layer_type LayerType.skip] }

end LayerList

namespace System

/-- The next call of the client under the protocol: `client_acquire` when it
holds nothing, `client_release` of the buffer it holds otherwise. -/
def client_next (sys : System) : Call :=
  match sys.client_held with
  | none => Call.client_acquire
  | some b => Call.client_release (some b)

/-- The next call of the compositor under the protocol: `compositor_release`
of the buffer it holds, `compositor_acquire` when it holds nothing. -/
def compositor_next (sys : System) : Call :=
  match sys.compositor_held with
  | some b => Call.compositor_release (some b)
  | none => Call.compositor_acquire

end System

/-- The expression `struct_size` of `generate_hwc_list`:
`sizeof(hwc_display_contents_1_t) + sizeof(hwc_layer_1_t)*(needed_size)` in
`size_t` arithmetic of width `w` bits; the two `sizeof` values come from the
Android hwcomposer header and are parameters. -/
def struct_size (w header_size entry_size needed_size : Nat) : Nat :=
  (header_size + (entry_size * needed_size) % 2 ^ w) % 2 ^ w

/-! # DrawPatternCheckered

Shallow embedding of `src/include/test/mir_test/draw/draw_pattern_checkered-inl.h`.
The `uint32_t` array at `region.vaddr` is a map from pixel index to pixel
value; `int` values are integers (regions are small enough for `int`).  The
array type `uint32_t [Rows][Cols]` excludes `Rows = 0` and `Cols = 0`.
-/

/-- Values of `MirPixelFormat`. -/
inductive MirPixelFormat where
  | mir_pixel_format_invalid
  | mir_pixel_format_abgr_8888
  | mir_pixel_format_xbgr_8888
  | mir_pixel_format_argb_8888
  | mir_pixel_format_xrgb_8888
  | mir_pixel_format_bgr_888
deriving DecidableEq

/-- Fields of `MirGraphicsRegion` other than `vaddr`. -/
structure MirGraphicsRegion where
  width : Int
  height : Int
  stride : Int
  pixel_format : MirPixelFormat
deriving DecidableEq

/-- The `uint32_t` array at `region.vaddr`, by pixel index. -/
abbrev PixelMemory := Int → Nat

/-- Exceptions thrown by `draw` and `check`. -/
inductive Exception where
  | runtime_error
deriving DecidableEq

/-- Modelled from the spec: `mir::geometry::bytes_per_pixel(PixelFormat::abgr_8888)`,
whose source is not under `src/`: four bytes per pixel. -/
def bytes_per_pixel_abgr_8888 : Int := 4

/-- Template `DrawPatternCheckered<Rows,Cols>` with its member `color_pattern`. -/
structure DrawPatternCheckered where
  Rows : Nat
  Cols : Nat
  color_pattern : Nat → Nat → Nat

namespace DrawPatternCheckered

/-- The first `count` iterations of the inner loop of `draw` (over `j`) for
column `i`. -/
def draw_inner (p : DrawPatternCheckered) (pixel_stride : Int) (i : Nat) :
    Nat → PixelMemory → PixelMemory
  | 0, pixel => pixel
  | j + 1, pixel =>
    Function.update (draw_inner p pixel_stride i j pixel) ((j : Int) * pixel_stride + (i : Int))
      (p.color_pattern (i % p.Rows) (j % p.Cols))

/-- The first `count` iterations of the outer loop of `draw` (over `i`), each
running the inner loop `height` times. -/
def draw_outer (p : DrawPatternCheckered) (pixel_stride : Int) (height : Nat) :
    Nat → PixelMemory → PixelMemory
  | 0, pixel => pixel
  | i + 1, pixel => draw_inner p pixel_stride i height (draw_outer p pixel_stride height i pixel)

/-- Method `draw(region)`: the exception or normal completion, and the pixel
array afterwards. -/
def draw (p : DrawPatternCheckered) (region : MirGraphicsRegion) (pixel : PixelMemory) :
    Except Exception Unit × PixelMemory :=
  if region.pixel_format ≠ MirPixelFormat.mir_pixel_format_abgr_8888 then
    (Except.error Exception.runtime_error, pixel)
  else
    let pixel_stride := Int.tdiv region.stride bytes_per_pixel_abgr_8888
    (Except.ok (), draw_outer p pixel_stride region.height.toNat region.width.toNat pixel)

/-- The first `count` iterations of the inner loop of `check` for column `i`:
false as soon as a pixel differs from the pattern. -/
def check_inner (p : DrawPatternCheckered) (pixel_stride : Int) (i : Nat) :
    Nat → PixelMemory → Bool
  | 0, _ => true
  | j + 1, pixel =>
    check_inner p pixel_stride i j pixel &&
      decide (pixel ((j : Int) * pixel_stride + (i : Int)) =
        p.color_pattern (i % p.Rows) (j % p.Cols))

/-- The first `count` iterations of the outer loop of `check`. -/
def check_outer (p : DrawPatternCheckered) (pixel_stride : Int) (height : Nat) :
    Nat → PixelMemory → Bool
  | 0, _ => true
  | i + 1, pixel =>
    check_outer p pixel_stride height i pixel && check_inner p pixel_stride i height pixel

/-- Method `check(region)`. -/
def check (p : DrawPatternCheckered) (region : MirGraphicsRegion) (pixel : PixelMemory) :
    Except Exception Bool :=
  if region.pixel_format ≠ MirPixelFormat.mir_pixel_format_abgr_8888 then
    Except.error Exception.runtime_error
  else
    let pixel_stride := Int.tdiv region.stride bytes_per_pixel_abgr_8888
    Except.ok (check_outer p pixel_stride region.height.toNat region.width.toNat pixel)

end DrawPatternCheckered

/-! ## Helper lemmas -/

/-- An acquire call leaves a null `last_posted_buffer` null. -/
theorem acquire_keeps_posted_null (c : Call) (s : BufferSwapperDouble)
    (r : Option BufferPtr) (s1 : BufferSwapperDouble)
    (hc : c = Call.client_acquire ∨ c = Call.compositor_acquire)
    (hnull : s.last_posted_buffer = none) (h : c.exec s = some (r, s1)) :
    s1.last_posted_buffer = none := by
  obtain ⟨flag, cq, lp⟩ := s
  simp only at hnull
  subst hnull
  rcases hc with rfl | rfl
  · cases cq <;> simp [Call.exec, BufferSwapperDouble.client_acquire] at h
    obtain ⟨-, rfl⟩ := h
    rfl
  · simp [Call.exec, BufferSwapperDouble.compositor_acquire] at h
    obtain ⟨-, rfl⟩ := h
    rfl

/-- A sequence of acquire calls leaves a null `last_posted_buffer` null. -/
theorem acquires_keep_posted_null (mid : List Call) (s : BufferSwapperDouble)
    (rs : List (Option BufferPtr)) (s1 : BufferSwapperDouble)
    (hmid : ∀ c ∈ mid, c = Call.client_acquire ∨ c = Call.compositor_acquire)
    (hnull : s.last_posted_buffer = none) (h : run mid s = some (rs, s1)) :
    s1.compositor_acquire.1 = none := by
  induction mid generalizing s rs with
  | nil =>
    simp [run] at h
    obtain ⟨-, rfl⟩ := h
    simpa [BufferSwapperDouble.compositor_acquire] using hnull
  | cons c cs ih =>
    rw [run] at h
    cases hc : c.exec s with
    | none => simp [hc] at h
    | some p =>
      obtain ⟨r, s2⟩ := p
      rw [hc] at h
      simp only at h
      cases hcs : run cs s2 with
      | none => simp [hcs] at h
      | some q =>
        obtain ⟨rs2, s3⟩ := q
        rw [hcs] at h
        simp only [Option.some.injEq, Prod.mk.injEq] at h
        obtain ⟨-, rfl⟩ := h
        exact ih s2 rs2 (fun c1 hc1 => hmid c1 (List.mem_cons_of_mem _ hc1))
          (acquire_keeps_posted_null c s r s2 (hmid c (List.mem_cons_self _ _)) hnull hc) hcs

/-- Splitting a completed run of a concatenation into its two parts. -/
theorem run_append_some (xs ys : List Call) (s : BufferSwapperDouble)
    (h : (run (xs ++ ys) s).isSome = true) :
    ∃ rs1 s1, run xs s = some (rs1, s1) ∧ (run ys s1).isSome = true := by
  induction xs generalizing s with
  | nil => exact ⟨[], s, rfl, by simpa using h⟩
  | cons c cs ih =>
    rw [List.cons_append, run] at h
    cases hc : c.exec s with
    | none => simp [hc] at h
    | some p =>
      obtain ⟨r, s2⟩ := p
      rw [hc] at h
      simp only at h
      have h2 : (run (cs ++ ys) s2).isSome = true := by
        cases hcs : run (cs ++ ys) s2 with
        | none => simp [hcs] at h
        | some q => rfl
      obtain ⟨rs1, s1, h3, h4⟩ := ih s2 h2
      exact ⟨r :: rs1, s1, by simp [run, hc, h3], h4⟩

/-- One call: releases by the client are paid for by compositor acquires. -/
theorem exec_outstanding (c : Call) (s : BufferSwapperDouble)
    (r : Option BufferPtr) (s1 : BufferSwapperDouble) (h : c.exec s = some (r, s1)) :
    countClientRelease [c] + outstanding s ≤ countCompositorAcquire [c] + outstanding s1 := by
  obtain ⟨flag, cq, lp⟩ := s
  rcases c with _ | q | _ | q <;> cases flag <;> cases cq <;> cases lp <;>
    simp [Call.exec, BufferSwapperDouble.client_acquire, BufferSwapperDouble.client_release,
      BufferSwapperDouble.compositor_acquire, BufferSwapperDouble.compositor_release] at h <;>
    obtain ⟨-, rfl⟩ := h <;>
    simp [countClientRelease, countCompositorAcquire, outstanding]

/-- A completed run: releases by the client are paid for by compositor acquires. -/
theorem run_outstanding (calls : List Call) (s : BufferSwapperDouble)
    (rs : List (Option BufferPtr)) (s1 : BufferSwapperDouble)
    (h : run calls s = some (rs, s1)) :
    countClientRelease calls + outstanding s ≤ countCompositorAcquire calls + outstanding s1 := by
  induction calls generalizing s rs with
  | nil =>
    simp [run] at h
    obtain ⟨-, rfl⟩ := h
    simp [countClientRelease, countCompositorAcquire]
  | cons c cs ih =>
    rw [run] at h
    cases hc : c.exec s with
    | none => simp [hc] at h
    | some p =>
      obtain ⟨r, s2⟩ := p
      rw [hc] at h
      simp only at h
      cases hcs : run cs s2 with
      | none => simp [hcs] at h
      | some q =>
        obtain ⟨rs2, s3⟩ := q
        rw [hcs] at h
        simp only [Option.some.injEq, Prod.mk.injEq] at h
        obtain ⟨-, rfl⟩ := h
        have h1 := exec_outstanding c s r s2 hc
        have h2 := ih s2 rs2 hcs
        have e1 : countClientRelease (c :: cs) = countClientRelease [c] + countClientRelease cs := by
          cases c <;> simp [countClientRelease, Nat.add_comm]
        have e2 : countCompositorAcquire (c :: cs) =
            countCompositorAcquire [c] + countCompositorAcquire cs := by
          cases c <;> simp [countCompositorAcquire, Nat.add_comm]
        omega

/-- Without a `compositor_acquire`, a false `compositor_has_consumed` stays false. -/
theorem run_keeps_flag_false (mid : List Call) (s : BufferSwapperDouble)
    (rs : List (Option BufferPtr)) (s1 : BufferSwapperDouble)
    (hmid : Call.compositor_acquire ∉ mid) (hflag : s.compositor_has_consumed = false)
    (h : run mid s = some (rs, s1)) : s1.compositor_has_consumed = false := by
  induction mid generalizing s rs with
  | nil =>
    simp [run] at h
    obtain ⟨-, rfl⟩ := h
    exact hflag
  | cons c cs ih =>
    rw [run] at h
    cases hc : c.exec s with
    | none => simp [hc] at h
    | some p =>
      obtain ⟨r, s2⟩ := p
      rw [hc] at h
      simp only at h
      cases hcs : run cs s2 with
      | none => simp [hcs] at h
      | some q =>
        obtain ⟨rs2, s3⟩ := q
        rw [hcs] at h
        simp only [Option.some.injEq, Prod.mk.injEq] at h
        obtain ⟨-, rfl⟩ := h
        refine ih s2 rs2 (fun hm => hmid (List.mem_cons_of_mem _ hm)) ?_ hcs
        obtain ⟨flag, cq, lp⟩ := s
        simp only at hflag
        subst hflag
        rcases c with _ | q | _ | q
        · cases cq <;> simp [Call.exec, BufferSwapperDouble.client_acquire] at hc
          obtain ⟨-, rfl⟩ := hc
          rfl
        · simp [Call.exec, BufferSwapperDouble.client_release] at hc
        · exact absurd (List.mem_cons_self _ _) hmid
        · cases lp <;> simp [Call.exec, BufferSwapperDouble.compositor_release] at hc <;>
            obtain ⟨-, rfl⟩ := hc <;> rfl

/-- A protocol step keeps the buffers in the four places a rearrangement of the pool. -/
theorem step_places_perm (A B : Buffer) (sys sys1 : System) (c : Call)
    (hinv : sys.places.Perm [A, B]) (h : sys.step c = some sys1) :
    sys1.places.Perm [A, B] := by
  obtain ⟨⟨flag, cq, lp⟩, cl, co⟩ := sys
  have hlen := hinv.length_eq
  rcases c with _ | (_ | q) | _ | (_ | q) <;>
    cases cq <;> cases lp <;> cases cl <;> cases co <;> cases flag <;>
    simp [System.step, System.places, BufferSwapperDouble.client_acquire,
      BufferSwapperDouble.client_release, BufferSwapperDouble.compositor_acquire,
      BufferSwapperDouble.compositor_release] at h hlen hinv <;>
    (try obtain ⟨h1, h2⟩ := h) <;> subst_vars <;>
    simp [System.places] <;>
    first
      | exact hinv
      | exact (List.Perm.swap _ _ _).trans hinv

/-- Every state reached by protocol-respecting calls holds exactly the pool. -/
theorem run_places_perm (A B : Buffer) (calls : List Call) (sys sys1 : System)
    (hinv : sys.places.Perm [A, B]) (h : System.run calls sys = some sys1) :
    sys1.places.Perm [A, B] := by
  induction calls generalizing sys with
  | nil =>
    simp [System.run] at h
    subst h
    exact hinv
  | cons c cs ih =>
    rw [System.run] at h
    cases hc : sys.step c with
    | none => simp [hc] at h
    | some sys2 =>
      rw [hc] at h
      exact ih sys2 (step_places_perm A B sys sys2 c hinv hc) h

/-- The constructed system holds exactly the pool. -/
theorem init_places (A B : Buffer) : (System.init A B).places = [A, B] := rfl

/-- One protocol step: the frame to show is the released one after a
`client_release` and is unchanged by the other three calls. -/
theorem step_latest (sys sys1 : System) (c : Call) (h : sys.step c = some sys1) :
    sys1.latest = (lastClientRelease [c]).getD sys.latest := by
  obtain ⟨⟨flag, cq, lp⟩, cl, co⟩ := sys
  rcases c with _ | (_ | q) | _ | (_ | q) <;>
    cases cq <;> cases lp <;> cases cl <;> cases co <;> cases flag <;>
    simp [System.step, BufferSwapperDouble.client_acquire,
      BufferSwapperDouble.client_release, BufferSwapperDouble.compositor_acquire,
      BufferSwapperDouble.compositor_release] at h <;>
    (try obtain ⟨h1, h2⟩ := h) <;> subst_vars <;>
    simp [System.latest, lastClientRelease]

/-- A protocol run: the frame to show is the one of the last `client_release`,
or the initial one when the run has no `client_release`. -/
theorem run_latest (calls : List Call) (sys sys1 : System)
    (h : System.run calls sys = some sys1) :
    sys1.latest = (lastClientRelease calls).getD sys.latest := by
  induction calls generalizing sys with
  | nil =>
    simp [System.run] at h
    subst h
    rfl
  | cons c cs ih =>
    rw [System.run] at h
    cases hc : sys.step c with
    | none => simp [hc] at h
    | some sys2 =>
      rw [hc] at h
      rw [ih sys2 h, step_latest sys sys2 c hc]
      cases hl : lastClientRelease cs <;> cases c <;> simp [lastClientRelease, hl]

/-! ## The four operations, one call at a time -/

/-- C7: `client_acquire` completes exactly when `client_queue` is non-null,
whatever `compositor_has_consumed` and `last_posted_buffer` are; it then
returns the pointer that was in `client_queue`, leaves `client_queue` null and
leaves `last_posted_buffer` and `compositor_has_consumed` as they were. -/
theorem client_acquire_contract (s : BufferSwapperDouble) :
    (Call.client_acquire.enabled s = true ↔ s.client_queue ≠ none) ∧
    (∀ (flag : Bool) (posted : BufferPtr),
      Call.client_acquire.enabled
        { s with compositor_has_consumed := flag, last_posted_buffer := posted } =
      Call.client_acquire.enabled s) ∧
    (∀ b : Buffer, s.client_queue = some b →
      ∃ s1, s.client_acquire = some (some b, s1) ∧
        s1.client_queue = none ∧
        s1.last_posted_buffer = s.last_posted_buffer ∧
        s1.compositor_has_consumed = s.compositor_has_consumed) := by
  obtain ⟨flag, cq, lp⟩ := s
  refine ⟨?_, ?_, ?_⟩
  · cases cq <;> simp [Call.enabled, Call.exec, BufferSwapperDouble.client_acquire]
  · intro f p
    cases cq <;> simp [Call.enabled, Call.exec, BufferSwapperDouble.client_acquire]
  · intro b hb
    simp only at hb
    subst hb
    exact ⟨⟨flag, none, lp⟩, by simp [BufferSwapperDouble.client_acquire], rfl, rfl, rfl⟩

/-- C8: `client_release(b)` completes exactly when `compositor_has_consumed`
is true; after it `compositor_has_consumed` is false, `last_posted_buffer` is
`b`, and `client_queue` is the previous `last_posted_buffer` when that was
non-null and is unchanged otherwise. -/
theorem client_release_contract (s : BufferSwapperDouble) (b : BufferPtr) :
    (Call.enabled (Call.client_release b) s = true ↔ s.compositor_has_consumed = true) ∧
    ((s.client_release b).isSome = true ↔ s.compositor_has_consumed = true) ∧
    (∀ s1, s.client_release b = some s1 →
      s1.compositor_has_consumed = false ∧
      s1.last_posted_buffer = b ∧
      (s.last_posted_buffer ≠ none → s1.client_queue = s.last_posted_buffer) ∧
      (s.last_posted_buffer = none → s1.client_queue = s.client_queue)) := by
  obtain ⟨flag, cq, lp⟩ := s
  refine ⟨?_, ?_, ?_⟩
  · cases flag <;> simp [Call.enabled, Call.exec, BufferSwapperDouble.client_release]
  · cases flag <;> simp [BufferSwapperDouble.client_release]
  · intro s1 h
    cases flag <;> cases lp <;>
      simp [BufferSwapperDouble.client_release] at h <;> subst h <;> simp

/-- C9: `compositor_acquire` completes in every state; it sets
`compositor_has_consumed`, returns the previous `last_posted_buffer` (null when
that was null), leaves `last_posted_buffer` null and `client_queue` unchanged.
A later `compositor_acquire` with only acquire calls (no release) in between
returns the null pointer. -/
theorem compositor_acquire_contract (s : BufferSwapperDouble) :
    Call.compositor_acquire.enabled s = true ∧
    s.compositor_acquire.2.compositor_has_consumed = true ∧
    s.compositor_acquire.1 = s.last_posted_buffer ∧
    s.compositor_acquire.2.last_posted_buffer = none ∧
    s.compositor_acquire.2.client_queue = s.client_queue ∧
    s.compositor_acquire.2.compositor_acquire.1 = none ∧
    (∀ (mid : List Call) (rs : List (Option BufferPtr)) (s1 : BufferSwapperDouble),
      (∀ c ∈ mid, c = Call.client_acquire ∨ c = Call.compositor_acquire) →
      run mid s.compositor_acquire.2 = some (rs, s1) →
      s1.compositor_acquire.1 = none) := by
  refine ⟨rfl, rfl, rfl, rfl, rfl, rfl, ?_⟩
  intro mid rs s1 hmid hrun
  exact acquires_keep_posted_null mid _ rs s1 hmid rfl hrun

/-- C10: `compositor_release(b)` completes in every state and leaves
`compositor_has_consumed` as it was; when `last_posted_buffer` is null it
stores `b` there and leaves `client_queue` unchanged, otherwise it stores `b`
in `client_queue` and leaves `last_posted_buffer` unchanged. -/
theorem compositor_release_contract (s : BufferSwapperDouble) (b : BufferPtr) :
    Call.enabled (Call.compositor_release b) s = true ∧
    (s.compositor_release b).compositor_has_consumed = s.compositor_has_consumed ∧
    (s.last_posted_buffer = none →
      (s.compositor_release b).last_posted_buffer = b ∧
      (s.compositor_release b).client_queue = s.client_queue) ∧
    (s.last_posted_buffer ≠ none →
      (s.compositor_release b).client_queue = b ∧
      (s.compositor_release b).last_posted_buffer = s.last_posted_buffer) := by
  obtain ⟨flag, cq, lp⟩ := s
  cases lp <;> simp [Call.enabled, Call.exec, BufferSwapperDouble.compositor_release]

/-- C3: in a state with `compositor_has_consumed` true, `client_release(b)`
with a non-null `b` completes and the `compositor_acquire` right after it
returns `b`, whatever the two slots held before. -/
theorem latest_frame_handed_over (s : BufferSwapperDouble) (b : Buffer)
    (hflag : s.compositor_has_consumed = true) :
    ∃ s1, s.client_release (some b) = some s1 ∧ s1.compositor_acquire.1 = some b := by
  obtain ⟨flag, cq, lp⟩ := s
  simp only at hflag
  subst hflag
  cases lp <;> simp [BufferSwapperDouble.client_release, BufferSwapperDouble.compositor_acquire]

/-- Witness for C3: a swapper holding buffers 0 and 1, the client releasing buffer 2. -/
theorem latest_frame_handed_over_witness :
    ∃ s1, (BufferSwapperDouble.ctor (some 0) (some 1)).client_release (some 2) = some s1 ∧
      s1.compositor_acquire.1 = some 2 :=
  latest_frame_handed_over (BufferSwapperDouble.ctor (some 0) (some 1)) 2 rfl

/-! ## Sequences of calls -/

/-- C1: exclusive ownership.  From a swapper constructed with distinct buffers
`A` and `B`, after any sequence of protocol-respecting calls no buffer is found
in two of the four places (`client_queue`, `last_posted_buffer`, held by the
client, held by the compositor); in particular `client_queue` and
`last_posted_buffer` never point to the same buffer. -/
theorem swapper_exclusive_ownership (A B : Buffer) (hAB : A ≠ B) (calls : List Call)
    (sys : System) (hrun : System.run calls (System.init A B) = some sys) :
    sys.places.Nodup ∧
    ∀ b : Buffer, ¬ (sys.swapper.client_queue = some b ∧
      sys.swapper.last_posted_buffer = some b) := by
  have hperm : sys.places.Perm [A, B] :=
    run_places_perm A B calls (System.init A B) sys (by rw [init_places]) hrun
  have hnodup : sys.places.Nodup := hperm.nodup_iff.mpr (by simp [hAB])
  refine ⟨hnodup, ?_⟩
  rintro b ⟨h1, h2⟩
  obtain ⟨⟨flag, cq, lp⟩, cl, co⟩ := sys
  simp only at h1 h2
  subst h1 h2
  simp [System.places] at hnodup

/-- Witness for C1: buffers 0 and 1, the client posts buffer 0 and the
compositor takes it. -/
theorem swapper_exclusive_ownership_witness :
    (System.places ⟨⟨true, some 1, none⟩, none, some 0⟩).Nodup ∧
    ∀ b : Buffer, ¬ ((some 1 : BufferPtr) = some b ∧ (none : BufferPtr) = some b) :=
  swapper_exclusive_ownership 0 1 (by decide)
    [Call.client_acquire, Call.client_release (some 0), Call.compositor_acquire]
    ⟨⟨true, some 1, none⟩, none, some 0⟩ (by decide)

/-- C2: pool conservation.  From a swapper constructed with distinct buffers
`A` and `B`, after any sequence of protocol-respecting calls the buffers in the
four places are exactly `A` and `B`, each once, two in total; and a release
that is made next writes `client_queue` only while `client_queue` is null, so
no buffer is overwritten. -/
theorem swapper_pool_conserved (A B : Buffer) (hAB : A ≠ B) (calls : List Call)
    (sys : System) (hrun : System.run calls (System.init A B) = some sys) :
    sys.places.Perm [A, B] ∧
    sys.places.count A = 1 ∧ sys.places.count B = 1 ∧
    sys.places.length = 2 ∧
    (∀ (p : BufferPtr) (sys1 : System), sys.step (Call.client_release p) = some sys1 →
      sys.swapper.last_posted_buffer ≠ none → sys.swapper.client_queue = none) ∧
    (∀ (p : BufferPtr) (sys1 : System), sys.step (Call.compositor_release p) = some sys1 →
      sys.swapper.last_posted_buffer ≠ none → sys.swapper.client_queue = none) := by
  have hperm : sys.places.Perm [A, B] :=
    run_places_perm A B calls (System.init A B) sys (by rw [init_places]) hrun
  have hlen := hperm.length_eq
  have hBA : B ≠ A := fun h => hAB h.symm
  refine ⟨hperm, ?_, ?_, by simpa using hlen, ?_, ?_⟩
  · rw [hperm.count_eq]
    simp [List.count_cons, hBA]
  · rw [hperm.count_eq]
    simp [List.count_cons, hAB]
  · intro p sys1 hstep hposted
    obtain ⟨⟨flag, cq, lp⟩, cl, co⟩ := sys
    cases p <;> cases cq <;> cases lp <;> cases cl <;> cases co <;>
      simp [System.step, System.places] at hstep hlen hposted ⊢
  · intro p sys1 hstep hposted
    obtain ⟨⟨flag, cq, lp⟩, cl, co⟩ := sys
    cases p <;> cases cq <;> cases lp <;> cases cl <;> cases co <;>
      simp [System.step, System.places] at hstep hlen hposted ⊢

/-- Witness for C2: buffers 0 and 1, the compositor takes buffer 1 while the
client draws into buffer 0 and posts it. -/
theorem swapper_pool_conserved_witness :
    (System.places ⟨⟨false, none, some 0⟩, none, some 1⟩).Perm [0, 1] ∧
    (System.places ⟨⟨false, none, some 0⟩, none, some 1⟩).count 0 = 1 ∧
    (System.places ⟨⟨false, none, some 0⟩, none, some 1⟩).count 1 = 1 ∧
    (System.places ⟨⟨false, none, some 0⟩, none, some 1⟩).length = 2 ∧
    (∀ (p : BufferPtr) (sys1 : System),
      System.step ⟨⟨false, none, some 0⟩, none, some 1⟩ (Call.client_release p) = some sys1 →
      (some 0 : BufferPtr) ≠ none → (none : BufferPtr) = none) ∧
    (∀ (p : BufferPtr) (sys1 : System),
      System.step ⟨⟨false, none, some 0⟩, none, some 1⟩ (Call.compositor_release p) = some sys1 →
      (some 0 : BufferPtr) ≠ none → (none : BufferPtr) = none) :=
  swapper_pool_conserved 0 1 (by decide)
    [Call.compositor_acquire, Call.client_acquire, Call.client_release (some 0)]
    ⟨⟨false, none, some 0⟩, none, some 1⟩ (by decide)

/-- C4, as the code has it: after any sequence of protocol-respecting calls
from the swapper constructed with `A` and `B`, a `compositor_acquire` made by
a compositor holding nothing returns the buffer passed to the most recent
preceding `client_release` when there is one, and the constructor's second
buffer `B` when no `client_release` precedes it. -/
theorem compositor_acquire_returns_latest (A B : Buffer) (calls : List Call)
    (sys sys1 : System) (hrun : System.run calls (System.init A B) = some sys)
    (hstep : sys.step Call.compositor_acquire = some sys1) :
    sys1.compositor_held = sys.swapper.compositor_acquire.1 ∧
    (∀ p : BufferPtr, lastClientRelease calls = some p →
      sys.swapper.compositor_acquire.1 = p) ∧
    (lastClientRelease calls = none → sys.swapper.compositor_acquire.1 = some B) := by
  have hlatest := run_latest calls (System.init A B) sys hrun
  obtain ⟨⟨flag, cq, lp⟩, cl, co⟩ := sys
  cases co with
  | some x => simp [System.step] at hstep
  | none =>
    simp [System.step, BufferSwapperDouble.compositor_acquire] at hstep
    subst hstep
    have hlp : lp = (lastClientRelease calls).getD (some B) := by
      cases lp <;> simpa [System.latest, System.init, BufferSwapperDouble.ctor] using hlatest
    refine ⟨rfl, ?_, ?_⟩
    · intro p hp
      simp [BufferSwapperDouble.compositor_acquire, hlp, hp]
    · intro hnone
      simp [BufferSwapperDouble.compositor_acquire, hlp, hnone]

/-- Witness for C4: buffers 0 and 1; the client posts buffer 0, the compositor
shows and returns it, then acquires again. -/
theorem compositor_acquire_returns_latest_witness :
    (some 0 : BufferPtr) =
      (BufferSwapperDouble.compositor_acquire ⟨true, some 1, some 0⟩).1 ∧
    (∀ p : BufferPtr,
      lastClientRelease [Call.client_acquire, Call.client_release (some 0),
        Call.compositor_acquire, Call.compositor_release (some 0)] = some p →
      (BufferSwapperDouble.compositor_acquire ⟨true, some 1, some 0⟩).1 = p) ∧
    (lastClientRelease [Call.client_acquire, Call.client_release (some 0),
        Call.compositor_acquire, Call.compositor_release (some 0)] = none →
      (BufferSwapperDouble.compositor_acquire ⟨true, some 1, some 0⟩).1 = some 1) :=
  compositor_acquire_returns_latest 0 1
    [Call.client_acquire, Call.client_release (some 0),
      Call.compositor_acquire, Call.compositor_release (some 0)]
    ⟨⟨true, some 1, some 0⟩, none, none⟩ ⟨⟨true, some 1, none⟩, none, some 0⟩
    (by decide) (by decide)

/-- C4 as stated fails: on the swapper constructed with buffers 0 and 1 the
very first call `compositor_acquire` returns buffer 1, which was passed to no
`client_release`. -/
theorem compositor_acquire_returns_latest_counterexample :
    System.run [] (System.init 0 1) = some (System.init 0 1) ∧
    (System.init 0 1).step Call.compositor_acquire =
      some ⟨⟨true, some 0, none⟩, none, some 1⟩ ∧
    (System.init 0 1).swapper.compositor_acquire.1 = some 1 ∧
    lastClientRelease [] = none ∧
    ¬ (∀ (calls : List Call) (sys sys1 : System),
        System.run calls (System.init 0 1) = some sys →
        sys.step Call.compositor_acquire = some sys1 →
        lastClientRelease calls = some sys.swapper.compositor_acquire.1) := by
  refine ⟨rfl, by decide, rfl, rfl, ?_⟩
  intro h
  have h1 := h [] (System.init 0 1) ⟨⟨true, some 0, none⟩, none, some 1⟩ rfl (by decide)
  simp [lastClientRelease] at h1

/-- C5: one-frame-ahead flow control.  `client_release` completes only from
`compositor_has_consumed = true` and leaves it false; `client_acquire` and
`compositor_release` keep the flag; `compositor_acquire` sets it and is the
only call that turns it from false to true.  So at every point of every
execution from the constructed swapper the completed `client_release` calls
number at most the `compositor_acquire` calls plus one, two completed
`client_release` calls have a `compositor_acquire` between them, and a
`client_release` right after a `client_release` does not complete. -/
theorem one_frame_ahead_flow_control :
    (∀ (s s1 : BufferSwapperDouble) (b : BufferPtr), s.client_release b = some s1 →
      s.compositor_has_consumed = true ∧ s1.compositor_has_consumed = false) ∧
    (∀ (s s1 : BufferSwapperDouble) (p : BufferPtr), s.client_acquire = some (p, s1) →
      s1.compositor_has_consumed = s.compositor_has_consumed) ∧
    (∀ (s : BufferSwapperDouble) (b : BufferPtr),
      (s.compositor_release b).compositor_has_consumed = s.compositor_has_consumed) ∧
    (∀ s : BufferSwapperDouble, s.compositor_acquire.2.compositor_has_consumed = true) ∧
    (∀ (c : Call) (s s1 : BufferSwapperDouble) (r : Option BufferPtr),
      c.exec s = some (r, s1) → s.compositor_has_consumed = false →
      s1.compositor_has_consumed = true → c = Call.compositor_acquire) ∧
    (∀ (buf_a buf_b : BufferPtr) (calls pre : List Call),
      (run calls (BufferSwapperDouble.ctor buf_a buf_b)).isSome = true → pre <+: calls →
      countClientRelease pre ≤ countCompositorAcquire pre + 1) ∧
    (∀ (buf_a buf_b b1 b2 : BufferPtr) (pre mid : List Call),
      (run (pre ++ (Call.client_release b1 :: mid ++ [Call.client_release b2]))
        (BufferSwapperDouble.ctor buf_a buf_b)).isSome = true →
      Call.compositor_acquire ∈ mid) ∧
    (∀ (s s1 : BufferSwapperDouble) (b1 b2 : BufferPtr), s.client_release b1 = some s1 →
      s1.client_release b2 = none ∧ Call.enabled (Call.client_release b2) s1 = false) := by
  have hrel : ∀ (s s1 : BufferSwapperDouble) (b : BufferPtr), s.client_release b = some s1 →
      s.compositor_has_consumed = true ∧ s1.compositor_has_consumed = false := by
    intro s s1 b h
    obtain ⟨flag, cq, lp⟩ := s
    cases flag <;> cases lp <;> simp [BufferSwapperDouble.client_release] at h <;>
      subst h <;> simp
  have hblock : ∀ (s : BufferSwapperDouble) (b : BufferPtr),
      s.compositor_has_consumed = false → s.client_release b = none := by
    intro s b h
    simp [BufferSwapperDouble.client_release, h]
  refine ⟨hrel, ?_, ?_, ?_, ?_, ?_, ?_, ?_⟩
  · intro s s1 p h
    obtain ⟨flag, cq, lp⟩ := s
    cases cq <;> simp [BufferSwapperDouble.client_acquire] at h
    obtain ⟨-, rfl⟩ := h
    rfl
  · intro s b
    obtain ⟨flag, cq, lp⟩ := s
    cases lp <;> simp [BufferSwapperDouble.compositor_release]
  · intro s
    rfl
  · intro c s s1 r h hs hs1
    obtain ⟨flag, cq, lp⟩ := s
    simp only at hs
    subst hs
    rcases c with _ | q | _ | q
    · cases cq <;> simp [Call.exec, BufferSwapperDouble.client_acquire] at h
      obtain ⟨-, rfl⟩ := h
      simp at hs1
    · simp [Call.exec, BufferSwapperDouble.client_release] at h
    · rfl
    · cases lp <;> simp [Call.exec, BufferSwapperDouble.compositor_release] at h <;>
        obtain ⟨-, rfl⟩ := h <;> simp at hs1
  · intro buf_a buf_b calls pre h hpre
    obtain ⟨post, rfl⟩ := hpre
    obtain ⟨rs1, s1, h1, -⟩ := run_append_some pre post _ h
    have h2 := run_outstanding pre _ rs1 s1 h1
    have h3 : outstanding (BufferSwapperDouble.ctor buf_a buf_b) = 0 := rfl
    have h4 : outstanding s1 ≤ 1 := by
      unfold outstanding
      split <;> omega
    omega
  · intro buf_a buf_b b1 b2 pre mid h
    by_contra hmid
    obtain ⟨rs1, s1, -, h1⟩ := run_append_some pre _ _ h
    have h2 : (run ([Call.client_release b1] ++ (mid ++ [Call.client_release b2])) s1).isSome
        = true := by simpa using h1
    obtain ⟨rs2, s2, h3, h4⟩ := run_append_some _ _ _ h2
    obtain ⟨rs3, s3, h5, h6⟩ := run_append_some _ _ _ h4
    have hs2 : s2.compositor_has_consumed = false := by
      cases hr : s1.client_release b1 with
      | none => simp [run, Call.exec, hr] at h3
      | some t =>
        simp [run, Call.exec, hr] at h3
        obtain ⟨-, rfl⟩ := h3
        exact (hrel s1 t b1 hr).2
    have hs3 := run_keeps_flag_false mid s2 rs3 s3 hmid hs2 h5
    simp [run, Call.exec, hblock s3 b2 hs3] at h6
  · intro s s1 b1 b2 h
    have h1 := hblock s1 b2 (hrel s s1 b1 h).2
    exact ⟨h1, by simp [Call.enabled, Call.exec, h1]⟩

/-- C6, as the code has it: on the swapper constructed with `A` and `B`, the
first `client_acquire` returns `A`; `client_release(A)` and then
`compositor_acquire` returns `A`; `compositor_release(A)` and then
`client_acquire` returns `B`, while `A` stays in `last_posted_buffer`. -/
theorem scenario_acquire_release (A B : Buffer) :
    run [Call.client_acquire, Call.client_release (some A), Call.compositor_acquire,
        Call.compositor_release (some A), Call.client_acquire]
      (BufferSwapperDouble.ctor (some A) (some B)) =
    some ([some (some A), none, some (some A), none, some (some B)],
      ⟨true, none, some A⟩) := by
  simp [run, Call.exec, BufferSwapperDouble.ctor, BufferSwapperDouble.client_acquire,
    BufferSwapperDouble.client_release, BufferSwapperDouble.compositor_acquire,
    BufferSwapperDouble.compositor_release]

/-- C6 as stated fails: with buffers 0 and 1 the last `client_acquire` of the
scenario returns buffer 1, not buffer 0. -/
theorem scenario_acquire_release_counterexample :
    (run [Call.client_acquire, Call.client_release (some 0), Call.compositor_acquire,
        Call.compositor_release (some 0), Call.client_acquire]
      (BufferSwapperDouble.ctor (some 0) (some 1))).map Prod.fst =
      some [some (some 0), none, some (some 0), none, some (some 1)] ∧
    (run [Call.client_acquire, Call.client_release (some 0), Call.compositor_acquire,
        Call.compositor_release (some 0), Call.client_acquire]
      (BufferSwapperDouble.ctor (some 0) (some 1))).map Prod.fst ≠
      some [some (some 0), none, some (some 0), none, some (some 0)] := by
  decide

/-! ## Helper lemmas for LayerList -/

/-- The in-place loop completes exactly when there are at least as many
wrappers as renderables. -/
theorem update_layers_isSome (ws : List HWCLayer) (rs : List Renderable) (any : Bool) :
    (LayerListBase.update_layers ws rs any).isSome = true ↔ rs.length ≤ ws.length := by
  induction rs generalizing ws any with
  | nil => cases ws <;> simp [LayerListBase.update_layers]
  | cons r rest ih =>
    cases ws with
    | nil => simp [LayerListBase.update_layers]
    | cons w ws =>
      have h := ih ws (any || ((w.set_render_parameters r.screen_position
        r.alpha_enabled).set_buffer r.buffer).needs_hwc_commit)
      simp only [LayerListBase.update_layers, List.length_cons, Nat.add_le_add_iff_right]
      rw [← h]
      cases LayerListBase.update_layers ws rest (any || ((w.set_render_parameters
        r.screen_position r.alpha_enabled).set_buffer r.buffer).needs_hwc_commit) <;> simp

/-- What the in-place loop leaves: as many wrappers as before; wrapper `k` is
the old wrapper `k` updated from renderable `k`; wrappers beyond the render
list are untouched; the flag is the or of the old flag and the
`needs_hwc_commit()` of the updated wrappers. -/
theorem update_layers_spec (ws : List HWCLayer) (rs : List Renderable) (any : Bool)
    (ws1 : List HWCLayer) (any1 : Bool)
    (h : LayerListBase.update_layers ws rs any = some (ws1, any1)) :
    ws1.length = ws.length ∧
    (∀ (k : Nat) (r : Renderable), rs[k]? = some r →
      ∃ w0, ws[k]? = some w0 ∧
        ws1[k]? = some ((w0.set_render_parameters r.screen_position
          r.alpha_enabled).set_buffer r.buffer)) ∧
    (∀ k : Nat, rs.length ≤ k → ws1[k]? = ws[k]?) ∧
    (any1 = true ↔ any = true ∨
      ∃ (k : Nat) (w : HWCLayer), k < rs.length ∧ ws1[k]? = some w ∧
        w.needs_hwc_commit = true) := by
  induction rs generalizing ws any ws1 any1 with
  | nil =>
    cases ws <;> simp [LayerListBase.update_layers] at h <;> obtain ⟨rfl, rfl⟩ := h <;> simp
  | cons r rest ih =>
    cases ws with
    | nil => simp [LayerListBase.update_layers] at h
    | cons w ws =>
      simp only [LayerListBase.update_layers] at h
      cases hrec : LayerListBase.update_layers ws rest (any || ((w.set_render_parameters
          r.screen_position r.alpha_enabled).set_buffer r.buffer).needs_hwc_commit) with
      | none => simp [hrec] at h
      | some p =>
        obtain ⟨ws2, any2⟩ := p
        rw [hrec] at h
        simp only [Option.some.injEq, Prod.mk.injEq] at h
        obtain ⟨rfl, rfl⟩ := h
        obtain ⟨hlen, hget, hrest, hany⟩ := ih ws _ ws2 any2 hrec
        refine ⟨by simp [hlen], ?_, ?_, ?_⟩
        · intro k r1 hk
          cases k with
          | zero =>
            simp only [List.getElem?_cons_zero, Option.some.injEq] at hk
            subst hk
            exact ⟨w, by simp, by simp⟩
          | succ k =>
            simp only [List.getElem?_cons_succ] at hk ⊢
            exact hget k r1 hk
        · intro k hk
          cases k with
          | zero => simp at hk
          | succ k =>
            simp only [List.getElem?_cons_succ]
            exact hrest k (by simpa using hk)
        · rw [hany]
          constructor
          · rintro (h1 | ⟨k, w1, hk, hw, hc⟩)
            · rw [Bool.or_eq_true] at h1
              rcases h1 with h1 | h1
              · exact Or.inl h1
              · exact Or.inr ⟨0, _, by simp, by simp, h1⟩
            · exact Or.inr ⟨k + 1, w1, by simpa using hk, by simpa using hw, hc⟩
          · rintro (h1 | ⟨k, w1, hk, hw, hc⟩)
            · exact Or.inl (by simp [h1])
            · cases k with
              | zero =>
                simp only [List.getElem?_cons_zero, Option.some.injEq] at hw
                subst hw
                exact Or.inl (by simp [hc])
              | succ k =>
                exact Or.inr ⟨k, w1, by simpa using hk, by simpa using hw, hc⟩

/-- The in-place loop keeps every wrapper linked where it was. -/
theorem update_layers_links (ws : List HWCLayer) (rs : List Renderable) (any : Bool)
    (ws1 : List HWCLayer) (any1 : Bool)
    (h : LayerListBase.update_layers ws rs any = some (ws1, any1)) :
    ws1.map (fun w => (w.hwc_list, w.layer_index)) =
      ws.map (fun w => (w.hwc_list, w.layer_index)) := by
  induction rs generalizing ws any ws1 any1 with
  | nil =>
    cases ws <;> simp [LayerListBase.update_layers] at h <;> obtain ⟨rfl, rfl⟩ := h <;> rfl
  | cons r rest ih =>
    cases ws with
    | nil => simp [LayerListBase.update_layers] at h
    | cons w ws =>
      simp only [LayerListBase.update_layers] at h
      cases hrec : LayerListBase.update_layers ws rest (any || ((w.set_render_parameters
          r.screen_position r.alpha_enabled).set_buffer r.buffer).needs_hwc_commit) with
      | none => simp [hrec] at h
      | some p =>
        obtain ⟨ws2, any2⟩ := p
        rw [hrec] at h
        simp only [Option.some.injEq, Prod.mk.injEq] at h
        obtain ⟨rfl, rfl⟩ := h
        simp [ih ws _ ws2 any2 hrec, HWCLayer.set_buffer, HWCLayer.set_render_parameters]

/-- When every paired wrapper already carries the values of its renderable,
the in-place loop completes and leaves the flag false. -/
theorem update_layers_unchanged (ws : List HWCLayer) (rs : List Renderable)
    (hlen : rs.length ≤ ws.length)
    (hcarry : ∀ (k : Nat) (w : HWCLayer) (r : Renderable), ws[k]? = some w → rs[k]? = some r →
      w.screen_position = r.screen_position ∧ w.alpha_enabled = r.alpha_enabled ∧
        w.buffer = some r.buffer) :
    ∃ ws1, LayerListBase.update_layers ws rs false = some (ws1, false) := by
  induction rs generalizing ws with
  | nil => exact ⟨ws, by cases ws <;> simp [LayerListBase.update_layers]⟩
  | cons r rest ih =>
    cases ws with
    | nil => simp at hlen
    | cons w ws =>
      obtain ⟨h1, h2, h3⟩ := hcarry 0 w r (by simp) (by simp)
      have hflag : ((w.set_render_parameters r.screen_position
          r.alpha_enabled).set_buffer r.buffer).needs_hwc_commit = false := by
        simp [HWCLayer.needs_hwc_commit, HWCLayer.set_buffer, HWCLayer.set_render_parameters,
          h1, h2, h3]
      obtain ⟨ws1, hws1⟩ := ih ws (by simpa using hlen)
        (fun k w1 r1 hw hr => hcarry (k + 1) w1 r1 (by simpa using hw) (by simpa using hr))
      exact ⟨(w.set_render_parameters r.screen_position r.alpha_enabled).set_buffer r.buffer ::
        ws1, by simp [LayerListBase.update_layers, hflag, hws1]⟩

/-- Number of wrappers the first rebuild loop creates. -/
theorem emplace_renderables_length (id : Nat) (rs : List Renderable) (i : Nat) :
    (LayerListBase.emplace_renderables id rs i).length = rs.length := by
  induction rs generalizing i with
  | nil => rfl
  | cons r rest ih => simp [LayerListBase.emplace_renderables, ih]

/-- Number of wrappers the second rebuild loop creates. -/
theorem emplace_padding_length (id count i : Nat) :
    (LayerListBase.emplace_padding id count i).length = count := by
  induction count generalizing i with
  | zero => rfl
  | succ c ih => simp [LayerListBase.emplace_padding, ih]

/-- The first rebuild loop links wrapper `k` to index `i + k` of the list. -/
theorem emplace_renderables_links (id : Nat) (rs : List Renderable) (i : Nat) :
    (LayerListBase.emplace_renderables id rs i).map (fun w => (w.hwc_list, w.layer_index)) =
      (List.range' i rs.length).map (fun k => (id, k)) := by
  induction rs generalizing i with
  | nil => rfl
  | cons r rest ih =>
    simp [LayerListBase.emplace_renderables, ih, List.range'_succ, HWCLayer.set_buffer,
      HWCLayer.ctor_typed, HWCLayer.set_render_parameters, HWCLayer.set_layer_type,
      HWCLayer.ctor]

/-- The second rebuild loop links wrapper `k` to index `i + k` of the list. -/
theorem emplace_padding_links (id count i : Nat) :
    (LayerListBase.emplace_padding id count i).map (fun w => (w.hwc_list, w.layer_index)) =
      (List.range' i count).map (fun k => (id, k)) := by
  induction count generalizing i with
  | zero => rfl
  | succ c ih => simp [LayerListBase.emplace_padding, ih, List.range'_succ, HWCLayer.ctor]

/-- The first rebuild loop gives wrapper `k` the values of renderable `k`. -/
theorem emplace_renderables_get (id : Nat) (rs : List Renderable) (i k : Nat) (r : Renderable)
    (hr : rs[k]? = some r) :
    (LayerListBase.emplace_renderables id rs i)[k]? =
      some ((HWCLayer.ctor_typed LayerType.gl_rendered r.screen_position r.alpha_enabled
        id (i + k)).set_buffer r.buffer) := by
  induction rs generalizing i k with
  | nil => simp at hr
  | cons r0 rest ih =>
    cases k with
    | zero =>
      simp only [List.getElem?_cons_zero, Option.some.injEq] at hr
      subst hr
      simp [LayerListBase.emplace_renderables]
    | succ k =>
      simp only [List.getElem?_cons_succ] at hr
      simp only [LayerListBase.emplace_renderables, List.getElem?_cons_succ]
      rw [ih (i + 1) k hr]
      congr 3
      omega

/-- Every wrapper of the second rebuild loop is a padding wrapper. -/
theorem emplace_padding_get (id count i k : Nat) (hk : k < count) :
    (LayerListBase.emplace_padding id count i)[k]? = some (HWCLayer.ctor id (i + k)) := by
  induction count generalizing i k with
  | zero => omega
  | succ c ih =>
    cases k with
    | zero => simp [LayerListBase.emplace_padding]
    | succ k =>
      simp only [LayerListBase.emplace_padding, List.getElem?_cons_succ]
      rw [ih (i + 1) k (by omega)]
      congr 2
      omega

/-- The native list and the allocation count after an update: a new list is
generated exactly when `needed_size` differs from `numHwLayers`. -/
theorem update_representation_native (L L1 : LayerListBase) (n : Nat) (rs : List Renderable)
    (h : L.update_representation n rs = some L1) :
    L1.hwc_representation =
      (if L.hwc_representation.numHwLayers ≠ n then generate_hwc_list L.allocations n
        else L.hwc_representation) ∧
    L1.allocations =
      (if L.hwc_representation.numHwLayers ≠ n then L.allocations + 1 else L.allocations) := by
  unfold LayerListBase.update_representation at h
  by_cases hn : L.hwc_representation.numHwLayers = n <;>
    by_cases hs : L.layers.length = n <;>
    simp only [hn, hs, ne_eq, not_true_eq_false, not_false_eq_true, if_true, if_false] at h ⊢
  all_goals first
    | (cases hu : LayerListBase.update_layers L.layers rs false with
        | none => simp [hu] at h
        | some p =>
          rw [hu] at h
          simp only [Option.some.injEq] at h
          subst h
          exact ⟨rfl, rfl⟩)
    | (simp only [Option.some.injEq] at h
       subst h
       exact ⟨rfl, rfl⟩)

/-- The rebuild branch: taken when the wrapper count differs from
`needed_size`; it always completes, sets the flag and builds the wrappers from
the two loops. -/
theorem update_representation_rebuild (L : LayerListBase) (n : Nat) (rs : List Renderable)
    (h : L.layers.length ≠ n) :
    ∃ L1, L.update_representation n rs = some L1 ∧
      L1.any_buffer_updated = true ∧
      L1.layers =
        LayerListBase.emplace_renderables L1.hwc_representation.id rs 0 ++
          LayerListBase.emplace_padding L1.hwc_representation.id (n - rs.length) rs.length := by
  unfold LayerListBase.update_representation
  by_cases hn : L.hwc_representation.numHwLayers = n <;>
    simp only [hn, h, ne_eq, not_true_eq_false, not_false_eq_true, if_true, if_false] <;>
    exact ⟨_, rfl, rfl, rfl⟩

/-- The in-place branch: taken when the wrapper count equals `needed_size`;
its wrappers and flag are those of the in-place loop started with the flag
false. -/
theorem update_representation_in_place (L : LayerListBase) (n : Nat) (rs : List Renderable)
    (h : L.layers.length = n) :
    ((L.update_representation n rs).isSome = true ↔ rs.length ≤ n) ∧
    ∀ L1, L.update_representation n rs = some L1 →
      LayerListBase.update_layers L.layers rs false =
        some (L1.layers, L1.any_buffer_updated) := by
  have hsome := update_layers_isSome L.layers rs false
  unfold LayerListBase.update_representation
  by_cases hn : L.hwc_representation.numHwLayers = n <;>
    simp only [hn, h, ne_eq, not_true_eq_false, not_false_eq_true, if_true, if_false] <;>
    (cases hu : LayerListBase.update_layers L.layers rs false with
      | none =>
        rw [hu] at hsome
        simp only [Option.isSome_none, Bool.false_eq_true, false_iff, h] at hsome
        exact ⟨by simpa using hsome, by simp⟩
      | some p =>
        rw [hu] at hsome
        simp only [Option.isSome_some, true_iff, h] at hsome
        refine ⟨by simpa using hsome, ?_⟩
        intro L1 hL1
        simp only [Option.some.injEq] at hL1
        subst hL1
        rfl)

/-- An update completes when it rebuilds, and when it updates in place with
at most `needed_size` renderables. -/
theorem update_representation_isSome (L : LayerListBase) (n : Nat) (rs : List Renderable)
    (h : L.layers.length ≠ n ∨ rs.length ≤ n) :
    (L.update_representation n rs).isSome = true := by
  by_cases hs : L.layers.length = n
  · rcases h with h | h
    · exact absurd hs h
    · exact (update_representation_in_place L n rs hs).1.mpr h
  · obtain ⟨L1, h1, -⟩ := update_representation_rebuild L n rs hs
    simp [h1]

/-- After any completed update the native list has `needed_size` entries. -/
theorem update_representation_numHwLayers (L L1 : LayerListBase) (n : Nat)
    (rs : List Renderable) (h : L.update_representation n rs = some L1) :
    L1.hwc_representation.numHwLayers = n := by
  rw [(update_representation_native L L1 n rs h).1]
  by_cases hn : L.hwc_representation.numHwLayers = n
  · simp [hn]
  · simp [hn, generate_hwc_list]

/-! ## LayerList: update_representation -/

/-- C11: when the wrapper count (the count of the previous update) differs
from `n`, `update_representation(n, renderables)` completes, `list_has_changed()`
is true afterwards and the native list has `n` entries, whatever the wrappers
report. -/
theorem update_with_new_count_forces_change (L : LayerListBase) (n : Nat)
    (rs : List Renderable) (hcount : L.layers.length ≠ n) :
    ∃ L1, L.update_representation n rs = some L1 ∧
      L1.list_has_changed = true ∧ L1.native_list.numHwLayers = n := by
  obtain ⟨L1, h1, h2, -⟩ := update_representation_rebuild L n rs hcount
  exact ⟨L1, h1, h2, update_representation_numHwLayers L L1 n rs h1⟩

/-- Witness for C11: a one-wrapper list updated for three entries with one
renderable. -/
theorem update_with_new_count_forces_change_witness :
    ∃ L1, LayerListBase.update_representation
        ⟨generate_hwc_list 0 1, [HWCLayer.ctor 0 0], false, 1⟩ 3
        [⟨⟨0, 0, 4, 4⟩, true, 7⟩] = some L1 ∧
      L1.list_has_changed = true ∧ L1.native_list.numHwLayers = 3 :=
  update_with_new_count_forces_change
    ⟨generate_hwc_list 0 1, [HWCLayer.ctor 0 0], false, 1⟩ 3
    [⟨⟨0, 0, 4, 4⟩, true, 7⟩] (by decide)

/-- C14: a freshly constructed `LayerList` has a native list with exactly one
entry and exactly one wrapper, linked to entry 0 of that list, whose layer type
is `skip`. -/
theorem fresh_layer_list :
    ∃ (L : LayerListBase) (w : HWCLayer), LayerList.ctor = some L ∧
      L.native_list.numHwLayers = 1 ∧ L.layers = [w] ∧
      w.hwc_list = L.native_list.id ∧ w.layer_index = 0 ∧
      w.layer_type = LayerType.skip :=
  ⟨⟨generate_hwc_list 0 1, [HWCLayer.ctor 0 0], true, 1⟩, HWCLayer.ctor 0 0,
    by decide, rfl, rfl, rfl, rfl, rfl⟩

/-- C16: a native list allocated for `n` entries, by the constructor or by
`update_representation(n, ...)` when `n` differs from `numHwLayers`, has
`numHwLayers = n` and `flags = HWC_GEOMETRY_CHANGED`, and `retirement_fence()`
is then -1; `retirement_fence()` is always the `retireFenceFd` of the current
native list. -/
theorem native_list_allocation :
    (∀ id n : Nat, (generate_hwc_list id n).numHwLayers = n ∧
      (generate_hwc_list id n).flags = HWC_GEOMETRY_CHANGED ∧
      (generate_hwc_list id n).retireFenceFd = -1) ∧
    (∀ n : Nat, ∃ L, LayerListBase.ctor n = some L ∧
      L.native_list.numHwLayers = n ∧ L.native_list.flags = HWC_GEOMETRY_CHANGED ∧
      L.retirement_fence = -1) ∧
    (∀ (L L1 : LayerListBase) (n : Nat) (rs : List Renderable),
      L.native_list.numHwLayers ≠ n → L.update_representation n rs = some L1 →
      L1.native_list = generate_hwc_list L.allocations n ∧
      L1.native_list.numHwLayers = n ∧ L1.native_list.flags = HWC_GEOMETRY_CHANGED ∧
      L1.retirement_fence = -1) ∧
    (∀ (L : LayerListBase) (n : Nat) (rs : List Renderable),
      L.layers.length ≠ n ∨ rs.length ≤ n → (L.update_representation n rs).isSome = true) ∧
    (∀ L : LayerListBase, L.retirement_fence = L.native_list.retireFenceFd) := by
  refine ⟨fun id n => ⟨rfl, rfl, rfl⟩, ?_, ?_, update_representation_isSome, fun L => rfl⟩
  · intro n
    have hsome := update_representation_isSome
      ⟨generate_hwc_list 0 n, [], false, 1⟩ n [] (Or.inr (by simp))
    obtain ⟨L, hL⟩ := Option.isSome_iff_exists.mp hsome
    have hnat := (update_representation_native _ L n [] hL).1
    simp only [generate_hwc_list, ne_eq, not_true_eq_false, if_false] at hnat
    refine ⟨L, hL, ?_, ?_, ?_⟩ <;>
      simp [LayerListBase.native_list, LayerListBase.retirement_fence, hnat]
  · intro L L1 n rs hn h
    have hnat := (update_representation_native L L1 n rs h).1
    have hn1 : L.hwc_representation.numHwLayers ≠ n := hn
    simp only [hn1, ne_eq, not_false_eq_true, if_true] at hnat
    refine ⟨hnat, ?_, ?_, ?_⟩ <;>
      simp [LayerListBase.native_list, LayerListBase.retirement_fence, hnat, generate_hwc_list]

/-- C17: an update with `n` equal to the current `numHwLayers` keeps the native
list (same object, same header fields) and allocates nothing; a completed
update allocates a new native list exactly when `n` differs from the current
`numHwLayers`. -/
theorem steady_state_no_reallocation :
    (∀ (L L1 : LayerListBase) (n : Nat) (rs : List Renderable),
      L.update_representation n rs = some L1 → n = L.native_list.numHwLayers →
      L1.native_list = L.native_list ∧ L1.allocations = L.allocations) ∧
    (∀ (L L1 : LayerListBase) (n : Nat) (rs : List Renderable),
      L.update_representation n rs = some L1 → n ≠ L.native_list.numHwLayers →
      L1.native_list = generate_hwc_list L.allocations n ∧
      L1.allocations = L.allocations + 1) ∧
    (∀ (L L1 : LayerListBase) (n : Nat) (rs : List Renderable),
      L.update_representation n rs = some L1 →
      (L1.allocations = L.allocations + 1 ↔ n ≠ L.native_list.numHwLayers)) ∧
    (∀ (L : LayerListBase) (n : Nat) (rs : List Renderable),
      L.layers.length ≠ n ∨ rs.length ≤ n → (L.update_representation n rs).isSome = true) := by
  refine ⟨?_, ?_, ?_, update_representation_isSome⟩
  · intro L L1 n rs h hn
    obtain ⟨h1, h2⟩ := update_representation_native L L1 n rs h
    have hn1 : L.hwc_representation.numHwLayers = n := hn.symm
    simp only [hn1, ne_eq, not_true_eq_false, if_false] at h1 h2
    exact ⟨h1, h2⟩
  · intro L L1 n rs h hn
    obtain ⟨h1, h2⟩ := update_representation_native L L1 n rs h
    have hn1 : L.hwc_representation.numHwLayers ≠ n := fun e => hn e.symm
    simp only [hn1, ne_eq, not_false_eq_true, if_true] at h1 h2
    exact ⟨h1, h2⟩
  · intro L L1 n rs h
    obtain ⟨-, h2⟩ := update_representation_native L L1 n rs h
    by_cases hn : L.hwc_representation.numHwLayers = n
    · simp only [hn, ne_eq, not_true_eq_false, if_false] at h2
      simp [h2, LayerListBase.native_list, hn]
    · simp only [hn, ne_eq, not_false_eq_true, if_true] at h2
      simp only [h2, LayerListBase.native_list, true_iff]
      exact fun e => hn e.symm

/-- C20: the result of `update_representation`, and so the value of
`list_has_changed()` after it, is the same whatever `any_buffer_updated` was
before the call. -/
theorem no_stale_change_flag (L : LayerListBase) (flag : Bool) (n : Nat)
    (rs : List Renderable) :
    LayerListBase.update_representation { L with any_buffer_updated := flag } n rs =
      L.update_representation n rs ∧
    (LayerListBase.update_representation { L with any_buffer_updated := flag } n rs).map
        LayerListBase.list_has_changed =
      (L.update_representation n rs).map LayerListBase.list_has_changed := by
  have h : LayerListBase.update_representation { L with any_buffer_updated := flag } n rs =
      L.update_representation n rs := rfl
  exact ⟨h, by rw [h]⟩

/-- After a completed update with at most `n` renderables there are `n`
wrappers, and wrapper `k` carries the screen position, alpha flag and buffer
of renderable `k`. -/
theorem update_representation_carries (L L1 : LayerListBase) (n : Nat) (rs : List Renderable)
    (hm : rs.length ≤ n) (h : L.update_representation n rs = some L1) :
    L1.layers.length = n ∧
    ∀ (k : Nat) (w : HWCLayer) (r : Renderable), L1.layers[k]? = some w → rs[k]? = some r →
      w.screen_position = r.screen_position ∧ w.alpha_enabled = r.alpha_enabled ∧
        w.buffer = some r.buffer := by
  by_cases hs : L.layers.length = n
  · have hu := (update_representation_in_place L n rs hs).2 L1 h
    obtain ⟨hlen, hget, -, -⟩ := update_layers_spec L.layers rs false _ _ hu
    refine ⟨by rw [hlen, hs], ?_⟩
    intro k w r hw hr
    obtain ⟨w0, -, hw1⟩ := hget k r hr
    rw [hw1] at hw
    simp only [Option.some.injEq] at hw
    subst hw
    exact ⟨rfl, rfl, rfl⟩
  · obtain ⟨L2, h2, -, hlayers⟩ := update_representation_rebuild L n rs hs
    rw [h] at h2
    simp only [Option.some.injEq] at h2
    subst h2
    refine ⟨?_, ?_⟩
    · rw [hlayers, List.length_append, emplace_renderables_length, emplace_padding_length]
      omega
    · intro k w r hw hr
      have hk : k < rs.length := by
        by_contra hk
        rw [List.getElem?_eq_none (by omega)] at hr
        simp at hr
      rw [hlayers, List.getElem?_append_left (by rw [emplace_renderables_length]; exact hk),
        emplace_renderables_get _ rs 0 k r hr] at hw
      simp only [Option.some.injEq] at hw
      subst hw
      exact ⟨rfl, rfl, rfl⟩

/-- C19: in the in-place path (wrapper count equal to `needed_size`) the call
completes exactly when there are at most that many renderables; then wrapper
`k` is the old wrapper `k` updated with the screen position, alpha flag and
buffer of renderable `k`, the number of wrappers stays, and
`list_has_changed()` is true exactly when the `needs_hwc_commit()` of a paired
wrapper is true; with no renderables it is false. -/
theorem in_place_update_pairs (L : LayerListBase) (n : Nat) (rs : List Renderable)
    (hsize : L.layers.length = n) :
    ((L.update_representation n rs).isSome = true ↔ rs.length ≤ n) ∧
    ∀ L1, L.update_representation n rs = some L1 →
      L1.layers.length = n ∧
      (∀ (k : Nat) (r : Renderable), rs[k]? = some r →
        ∃ w0, L.layers[k]? = some w0 ∧
          L1.layers[k]? = some ((w0.set_render_parameters r.screen_position
            r.alpha_enabled).set_buffer r.buffer)) ∧
      (∀ (k : Nat) (w : HWCLayer) (r : Renderable), L1.layers[k]? = some w →
        rs[k]? = some r →
        w.screen_position = r.screen_position ∧ w.alpha_enabled = r.alpha_enabled ∧
          w.buffer = some r.buffer) ∧
      (L1.list_has_changed = true ↔
        ∃ (k : Nat) (w : HWCLayer), k < rs.length ∧ L1.layers[k]? = some w ∧
          w.needs_hwc_commit = true) ∧
      (rs = [] → L1.list_has_changed = false) := by
  obtain ⟨hsome, hloop⟩ := update_representation_in_place L n rs hsize
  refine ⟨hsome, ?_⟩
  intro L1 h
  have hm : rs.length ≤ n := hsome.mp (by simp [h])
  obtain ⟨hlen, hget, -, hany⟩ := update_layers_spec L.layers rs false _ _ (hloop L1 h)
  have hchanged : L1.list_has_changed = true ↔
      ∃ (k : Nat) (w : HWCLayer), k < rs.length ∧ L1.layers[k]? = some w ∧
        w.needs_hwc_commit = true := by
    unfold LayerListBase.list_has_changed
    rw [hany]
    simp
  refine ⟨by rw [hlen, hsize], hget, (update_representation_carries L L1 n rs hm h).2,
    hchanged, ?_⟩
  intro hrs
  subst hrs
  cases hc : L1.list_has_changed with
  | false => rfl
  | true =>
    obtain ⟨k, w, hk, -, -⟩ := hchanged.mp hc
    simp at hk

/-- Witness for C19: a list of two wrappers updated in place with one
renderable. -/
theorem in_place_update_pairs_witness :
    ((LayerListBase.update_representation
        ⟨generate_hwc_list 0 2, [HWCLayer.ctor 0 0, HWCLayer.ctor 0 1], false, 1⟩ 2
        [⟨⟨0, 0, 4, 4⟩, true, 7⟩]).isSome = true ↔
      [(⟨⟨0, 0, 4, 4⟩, true, 7⟩ : Renderable)].length ≤ 2) ∧
    ∀ L1, LayerListBase.update_representation
        ⟨generate_hwc_list 0 2, [HWCLayer.ctor 0 0, HWCLayer.ctor 0 1], false, 1⟩ 2
        [⟨⟨0, 0, 4, 4⟩, true, 7⟩] = some L1 →
      L1.layers.length = 2 ∧
      (∀ (k : Nat) (r : Renderable), [(⟨⟨0, 0, 4, 4⟩, true, 7⟩ : Renderable)][k]? = some r →
        ∃ w0, [HWCLayer.ctor 0 0, HWCLayer.ctor 0 1][k]? = some w0 ∧
          L1.layers[k]? = some ((w0.set_render_parameters r.screen_position
            r.alpha_enabled).set_buffer r.buffer)) ∧
      (∀ (k : Nat) (w : HWCLayer) (r : Renderable), L1.layers[k]? = some w →
        [(⟨⟨0, 0, 4, 4⟩, true, 7⟩ : Renderable)][k]? = some r →
        w.screen_position = r.screen_position ∧ w.alpha_enabled = r.alpha_enabled ∧
          w.buffer = some r.buffer) ∧
      (L1.list_has_changed = true ↔
        ∃ (k : Nat) (w : HWCLayer),
          k < [(⟨⟨0, 0, 4, 4⟩, true, 7⟩ : Renderable)].length ∧ L1.layers[k]? = some w ∧
          w.needs_hwc_commit = true) ∧
      ([(⟨⟨0, 0, 4, 4⟩, true, 7⟩ : Renderable)] = [] → L1.list_has_changed = false) :=
  in_place_update_pairs
    ⟨generate_hwc_list 0 2, [HWCLayer.ctor 0 0, HWCLayer.ctor 0 1], false, 1⟩ 2
    [⟨⟨0, 0, 4, 4⟩, true, 7⟩] (by decide)

/-- C12, as the code has it: for every list state and every render list with
at most `n` renderables, two successive calls `update_representation(n, rs)`
with unchanged renderables complete and `list_has_changed()` is false after
the second. -/
theorem unchanged_update_reports_no_change (L : LayerListBase) (n : Nat)
    (rs : List Renderable) (hm : rs.length ≤ n) :
    ∃ L1 L2, L.update_representation n rs = some L1 ∧
      L1.update_representation n rs = some L2 ∧ L2.list_has_changed = false := by
  obtain ⟨L1, h1⟩ := Option.isSome_iff_exists.mp
    (update_representation_isSome L n rs (Or.inr hm))
  obtain ⟨hlen, hcarry⟩ := update_representation_carries L L1 n rs hm h1
  obtain ⟨hsome, hloop⟩ := update_representation_in_place L1 n rs hlen
  obtain ⟨L2, h2⟩ := Option.isSome_iff_exists.mp (hsome.mpr hm)
  obtain ⟨ws, hws⟩ := update_layers_unchanged L1.layers rs (by rw [hlen]; exact hm) hcarry
  have h3 := hloop L2 h2
  rw [hws] at h3
  simp only [Option.some.injEq, Prod.mk.injEq] at h3
  exact ⟨L1, L2, h1, h2, h3.2.symm⟩

/-- Witness for C12: a one-wrapper list updated twice for two entries with the
same two renderables. -/
theorem unchanged_update_reports_no_change_witness :
    ∃ L1 L2, LayerListBase.update_representation
        ⟨generate_hwc_list 0 1, [HWCLayer.ctor 0 0], true, 1⟩ 2
        [⟨⟨0, 0, 4, 4⟩, true, 7⟩, ⟨⟨1, 1, 4, 4⟩, false, 8⟩] = some L1 ∧
      L1.update_representation 2
        [⟨⟨0, 0, 4, 4⟩, true, 7⟩, ⟨⟨1, 1, 4, 4⟩, false, 8⟩] = some L2 ∧
      L2.list_has_changed = false :=
  unchanged_update_reports_no_change
    ⟨generate_hwc_list 0 1, [HWCLayer.ctor 0 0], true, 1⟩ 2
    [⟨⟨0, 0, 4, 4⟩, true, 7⟩, ⟨⟨1, 1, 4, 4⟩, false, 8⟩] (by decide)

/-- C12 as stated fails: on a fresh `LayerList`, two successive calls
`update_representation(2, rs)` with the same three renderables both rebuild
the three wrappers, and `list_has_changed()` is true after the second. -/
theorem unchanged_update_reports_no_change_counterexample :
    (LayerList.ctor.bind fun L =>
      (L.update_representation 2
        [⟨⟨0, 0, 4, 4⟩, true, 7⟩, ⟨⟨1, 1, 4, 4⟩, false, 8⟩, ⟨⟨2, 2, 4, 4⟩, false, 9⟩]).bind
      fun L1 =>
        (L1.update_representation 2
          [⟨⟨0, 0, 4, 4⟩, true, 7⟩, ⟨⟨1, 1, 4, 4⟩, false, 8⟩, ⟨⟨2, 2, 4, 4⟩, false, 9⟩]).map
        fun L2 => (L1.layers.length, L2.list_has_changed)) = some (3, true) := by
  decide

/-- What `positional` says wrapper by wrapper: as many wrappers as native
entries, wrapper `k` linked to entry `k` of the current native list. -/
theorem positional_pointwise (L : LayerListBase) (h : L.positional) :
    L.layers.length = L.hwc_representation.numHwLayers ∧
    ∀ (k : Nat) (w : HWCLayer), L.layers[k]? = some w →
      w.hwc_list = L.hwc_representation.id ∧ w.layer_index = k := by
  unfold LayerListBase.positional at h
  have hlen : L.layers.length = L.hwc_representation.numHwLayers := by
    have := congrArg List.length h
    simpa using this
  refine ⟨hlen, ?_⟩
  intro k w hw
  have hk : k < L.layers.length := by
    by_contra hk
    rw [List.getElem?_eq_none (by omega)] at hw
    simp at hw
  have h1 := congrArg (fun l => l[k]?) h
  simp only [List.getElem?_map, hw, Option.map_some'] at h1
  rw [List.getElem?_range (by omega)] at h1
  simp only [Option.map_some', Option.some.injEq, Prod.mk.injEq] at h1
  exact h1

/-- An update with at most `n` renderables keeps a positional list positional
and leaves `n` wrappers for `n` native entries. -/
theorem update_representation_positional (L : LayerListBase) (n : Nat) (rs : List Renderable)
    (hpos : L.positional) (hm : rs.length ≤ n) :
    ∃ L1, L.update_representation n rs = some L1 ∧ L1.layers.length = n ∧
      L1.hwc_representation.numHwLayers = n ∧ L1.positional := by
  obtain ⟨L1, h1⟩ := Option.isSome_iff_exists.mp
    (update_representation_isSome L n rs (Or.inr hm))
  have hnum := update_representation_numHwLayers L L1 n rs h1
  have hlen := (update_representation_carries L L1 n rs hm h1).1
  refine ⟨L1, h1, hlen, hnum, ?_⟩
  by_cases hs : L.layers.length = n
  · have hlinks := update_layers_links L.layers rs false _ _
      ((update_representation_in_place L n rs hs).2 L1 h1)
    have hnat := (update_representation_native L L1 n rs h1).1
    have hn : L.hwc_representation.numHwLayers = n := by
      rw [← (positional_pointwise L hpos).1, hs]
    simp only [hn, ne_eq, not_true_eq_false, if_false] at hnat
    unfold LayerListBase.positional at hpos ⊢
    rw [hlinks, hnat, hpos]
  · obtain ⟨L2, h2, -, hlayers⟩ := update_representation_rebuild L n rs hs
    rw [h1] at h2
    simp only [Option.some.injEq] at h2
    subst h2
    unfold LayerListBase.positional
    rw [hlayers, List.map_append, emplace_renderables_links, emplace_padding_links, hnum,
      ← List.map_append, List.range_eq_range']
    congr 1
    have := List.range'_append 0 rs.length (n - rs.length) 1
    simp only [Nat.zero_add, Nat.one_mul] at this
    rw [this]
    congr 1
    omega

/-- C13, as the code has it: a constructed list is positional (as many
wrappers as native entries, wrapper `i` linked to entry `i` of the current
native list), and every `update_representation(n, renderables)` with at most
`n` renderables applied to a positional list completes and leaves a
positional list with `layers.size() == numHwLayers == n`. -/
theorem length_and_positional_invariant :
    (∀ n0 : Nat, ∃ L, LayerListBase.ctor n0 = some L ∧ L.positional) ∧
    (∃ L, LayerList.ctor = some L ∧ L.positional) ∧
    (∀ (L : LayerListBase) (n : Nat) (rs : List Renderable),
      L.positional → rs.length ≤ n →
      ∃ L1, L.update_representation n rs = some L1 ∧
        L1.layers.length = n ∧ L1.native_list.numHwLayers = n ∧ L1.positional) ∧
    (∀ L : LayerListBase, L.positional →
      L.layers.length = L.native_list.numHwLayers ∧
      ∀ (k : Nat) (w : HWCLayer), L.layers[k]? = some w →
        w.hwc_list = L.native_list.id ∧ w.layer_index = k) := by
  refine ⟨?_, ⟨⟨generate_hwc_list 0 1, [HWCLayer.ctor 0 0], true, 1⟩, by decide, by decide⟩,
    update_representation_positional, positional_pointwise⟩
  intro n0
  by_cases h0 : n0 = 0
  · subst h0
    exact ⟨⟨generate_hwc_list 0 0, [], false, 1⟩, by decide, by decide⟩
  · obtain ⟨L1, h1, -, hlayers⟩ := update_representation_rebuild
      ⟨generate_hwc_list 0 n0, [], false, 1⟩ n0 [] (by simpa using fun e => h0 e.symm)
    have hnat := (update_representation_native _ L1 n0 [] h1).1
    simp only [generate_hwc_list, ne_eq, not_true_eq_false, if_false] at hnat
    refine ⟨L1, h1, ?_⟩
    unfold LayerListBase.positional
    rw [hlayers, List.map_append, emplace_renderables_links, emplace_padding_links, hnat,
      List.range_eq_range']
    simp

/-- C13 as stated fails: on a fresh `LayerList`, `update_representation(2, rs)`
with three renderables leaves three wrappers for a native list of two entries;
a following `update_representation(3, rs)` allocates a new native list (`id` 2)
while the three wrappers stay linked to the discarded one (`id` 1). -/
theorem length_and_positional_invariant_counterexample :
    (LayerList.ctor.bind fun L =>
      (L.update_representation 2
        [⟨⟨0, 0, 4, 4⟩, true, 7⟩, ⟨⟨1, 1, 4, 4⟩, false, 8⟩, ⟨⟨2, 2, 4, 4⟩, false, 9⟩]).map
      fun L1 => (L1.layers.length, L1.native_list.numHwLayers)) = some (3, 2) ∧
    (LayerList.ctor.bind fun L =>
      (L.update_representation 2
        [⟨⟨0, 0, 4, 4⟩, true, 7⟩, ⟨⟨1, 1, 4, 4⟩, false, 8⟩, ⟨⟨2, 2, 4, 4⟩, false, 9⟩]).bind
      fun L1 =>
        (L1.update_representation 3
          [⟨⟨0, 0, 4, 4⟩, true, 7⟩, ⟨⟨1, 1, 4, 4⟩, false, 8⟩, ⟨⟨2, 2, 4, 4⟩, false, 9⟩]).map
        fun L2 => (L2.native_list.id, L2.layers.map HWCLayer.hwc_list)) =
      some (2, [1, 1, 1]) := by
  decide

/-- C15, as the code has it: a fresh `LayerList` has one native entry whose
wrapper is tagged `skip`.  `update_representation(n, {})` always completes and
leaves `n` native entries; when the wrapper count equals `n` it leaves every
wrapper as it was, otherwise it builds `n` padding wrappers tagged `skip`,
wrapper `k` linked to entry `k`.  So `update_representation(1, {})` on a fresh
`LayerList` keeps the one `skip` entry. -/
theorem zero_renderables_update :
    (∃ (L : LayerListBase) (w : HWCLayer), LayerList.ctor = some L ∧
      L.native_list.numHwLayers = 1 ∧ L.layers = [w] ∧ w.layer_type = LayerType.skip) ∧
    (∀ (L : LayerListBase) (n : Nat),
      ∃ L1, L.update_representation n [] = some L1 ∧
        L1.native_list.numHwLayers = n ∧
        (L.layers.length = n → L1.layers = L.layers) ∧
        (L.layers.length ≠ n → L1.layers.length = n ∧
          ∀ (k : Nat) (w : HWCLayer), L1.layers[k]? = some w →
            w.layer_type = LayerType.skip ∧ w.hwc_list = L1.native_list.id ∧
              w.layer_index = k)) ∧
    (∃ (L L1 : LayerListBase) (w : HWCLayer), LayerList.ctor = some L ∧
      L.update_representation 1 [] = some L1 ∧ L1.native_list.numHwLayers = 1 ∧
      L1.layers = [w] ∧ w.layer_type = LayerType.skip) := by
  refine ⟨⟨⟨generate_hwc_list 0 1, [HWCLayer.ctor 0 0], true, 1⟩, HWCLayer.ctor 0 0,
    by decide, rfl, rfl, rfl⟩, ?_,
    ⟨⟨generate_hwc_list 0 1, [HWCLayer.ctor 0 0], true, 1⟩,
      ⟨generate_hwc_list 0 1, [HWCLayer.ctor 0 0], false, 1⟩, HWCLayer.ctor 0 0,
      by decide, by decide, rfl, rfl, rfl⟩⟩
  intro L n
  obtain ⟨L1, h1⟩ := Option.isSome_iff_exists.mp
    (update_representation_isSome L n [] (Or.inr (by simp)))
  refine ⟨L1, h1, update_representation_numHwLayers L L1 n [] h1, ?_, ?_⟩
  · intro hs
    have hu := (update_representation_in_place L n [] hs).2 L1 h1
    cases hl : L.layers <;> simp [hl, LayerListBase.update_layers] at hu <;> simp [hu]
  · intro hs
    obtain ⟨L2, h2, -, hlayers⟩ := update_representation_rebuild L n [] hs
    rw [h1] at h2
    simp only [Option.some.injEq] at h2
    subst h2
    simp only [LayerListBase.emplace_renderables, List.nil_append, List.length_nil,
      Nat.sub_zero] at hlayers
    refine ⟨by rw [hlayers, emplace_padding_length], ?_⟩
    intro k w hw
    have hk : k < n := by
      by_contra hk
      rw [hlayers, List.getElem?_eq_none (by rw [emplace_padding_length]; omega)] at hw
      simp at hw
    rw [hlayers, emplace_padding_get _ n 0 k hk] at hw
    simp only [Option.some.injEq] at hw
    subst hw
    exact ⟨rfl, rfl, by simp [HWCLayer.ctor]⟩

/-- C15 as stated fails: on a fresh `LayerList`, `update_representation(2, {})`
leaves two native entries, not one; and after the scene went from one
renderable to none with `needed_size` 1, the one entry is still tagged
`gl_rendered`, not `skip`. -/
theorem zero_renderables_update_counterexample :
    (LayerList.ctor.bind fun L =>
      (L.update_representation 2 []).map fun L1 => L1.native_list.numHwLayers) = some 2 ∧
    (LayerList.ctor.bind fun L =>
      (L.update_representation 0 []).bind fun L1 =>
        (L1.update_representation 1 [⟨⟨0, 0, 4, 4⟩, true, 7⟩]).bind fun L2 =>
          (L2.update_representation 1 []).map fun L3 =>
            (L3.native_list.numHwLayers, L3.layers.map HWCLayer.layer_type)) =
      some (1, [LayerType.gl_rendered]) := by
  decide

/-! ## Helper lemmas for the implicit swapper claims -/

/-- A protocol step keeps the frame to show non-null. -/
theorem step_latest_ne_none (sys sys1 : System) (c : Call) (hinv : sys.latest ≠ none)
    (h : sys.step c = some sys1) : sys1.latest ≠ none := by
  obtain ⟨⟨flag, cq, lp⟩, cl, co⟩ := sys
  rcases c with _ | (_ | q) | _ | (_ | q) <;>
    cases cq <;> cases lp <;> cases cl <;> cases co <;> cases flag <;>
    simp [System.step, System.latest, BufferSwapperDouble.client_acquire,
      BufferSwapperDouble.client_release, BufferSwapperDouble.compositor_acquire,
      BufferSwapperDouble.compositor_release] at h hinv <;>
    (try obtain ⟨h1, h2⟩ := h) <;> subst_vars <;>
    simp [System.latest]

/-- In every state reached by protocol-respecting calls the frame to show is
non-null. -/
theorem run_latest_ne_none (calls : List Call) (sys sys1 : System)
    (hinv : sys.latest ≠ none) (h : System.run calls sys = some sys1) :
    sys1.latest ≠ none := by
  induction calls generalizing sys with
  | nil =>
    simp [System.run] at h
    subst h
    exact hinv
  | cons c cs ih =>
    rw [System.run] at h
    cases hc : sys.step c with
    | none => simp [hc] at h
    | some sys2 =>
      rw [hc] at h
      exact ih sys2 (step_latest_ne_none sys sys2 c hinv hc) h

/-- A protocol step keeps: while `compositor_has_consumed` is false,
`last_posted_buffer` is non-null. -/
theorem step_flag_posted (sys sys1 : System) (c : Call)
    (hinv : sys.swapper.compositor_has_consumed = false →
      sys.swapper.last_posted_buffer ≠ none)
    (h : sys.step c = some sys1) :
    sys1.swapper.compositor_has_consumed = false →
      sys1.swapper.last_posted_buffer ≠ none := by
  obtain ⟨⟨flag, cq, lp⟩, cl, co⟩ := sys
  rcases c with _ | (_ | q) | _ | (_ | q) <;>
    cases cq <;> cases lp <;> cases cl <;> cases co <;> cases flag <;>
    simp [System.step, BufferSwapperDouble.client_acquire,
      BufferSwapperDouble.client_release, BufferSwapperDouble.compositor_acquire,
      BufferSwapperDouble.compositor_release] at h hinv <;>
    (try obtain ⟨h1, h2⟩ := h) <;> subst_vars <;>
    simp

/-- In every state reached by protocol-respecting calls: while
`compositor_has_consumed` is false, `last_posted_buffer` is non-null. -/
theorem run_flag_posted (calls : List Call) (sys sys1 : System)
    (hinv : sys.swapper.compositor_has_consumed = false →
      sys.swapper.last_posted_buffer ≠ none)
    (h : System.run calls sys = some sys1) :
    sys1.swapper.compositor_has_consumed = false →
      sys1.swapper.last_posted_buffer ≠ none := by
  induction calls generalizing sys with
  | nil =>
    simp [System.run] at h
    subst h
    exact hinv
  | cons c cs ih =>
    rw [System.run] at h
    cases hc : sys.step c with
    | none => simp [hc] at h
    | some sys2 =>
      rw [hc] at h
      exact ih sys2 (step_flag_posted sys sys2 c hinv hc) h

/-- Without a `client_release`, a true `compositor_has_consumed` stays true. -/
theorem run_keeps_flag_true (calls : List Call) (s : BufferSwapperDouble)
    (rs : List (Option BufferPtr)) (s1 : BufferSwapperDouble)
    (hcalls : countClientRelease calls = 0) (hflag : s.compositor_has_consumed = true)
    (h : run calls s = some (rs, s1)) : s1.compositor_has_consumed = true := by
  induction calls generalizing s rs with
  | nil =>
    simp [run] at h
    obtain ⟨-, rfl⟩ := h
    exact hflag
  | cons c cs ih =>
    rw [run] at h
    cases hc : c.exec s with
    | none => simp [hc] at h
    | some p =>
      obtain ⟨r, s2⟩ := p
      rw [hc] at h
      simp only at h
      cases hcs : run cs s2 with
      | none => simp [hcs] at h
      | some q =>
        obtain ⟨rs2, s3⟩ := q
        rw [hcs] at h
        simp only [Option.some.injEq, Prod.mk.injEq] at h
        obtain ⟨-, rfl⟩ := h
        obtain ⟨flag, cq, lp⟩ := s
        simp only at hflag
        subst hflag
        rcases c with _ | q | _ | q
        · refine ih s2 rs2 (by simpa [countClientRelease] using hcalls) ?_ hcs
          cases cq <;> simp [Call.exec, BufferSwapperDouble.client_acquire] at hc
          obtain ⟨-, rfl⟩ := hc
          rfl
        · simp [countClientRelease] at hcalls
        · refine ih s2 rs2 (by simpa [countClientRelease] using hcalls) ?_ hcs
          simp [Call.exec, BufferSwapperDouble.compositor_acquire] at hc
          obtain ⟨-, rfl⟩ := hc
          rfl
        · refine ih s2 rs2 (by simpa [countClientRelease] using hcalls) ?_ hcs
          cases lp <;> simp [Call.exec, BufferSwapperDouble.compositor_release] at hc <;>
            obtain ⟨-, rfl⟩ := hc <;> rfl

/-! ## Implicit swapper claims -/

/-- C23: in every state reached by protocol-respecting calls from a swapper
constructed with two non-null buffers, `last_posted_buffer` is non-null
whenever the compositor holds no buffer, so a `compositor_acquire` made then
returns a non-null buffer. -/
theorem compositor_acquire_never_empty (A B : Buffer) (calls : List Call) (sys : System)
    (hrun : System.run calls (System.init A B) = some sys) :
    (sys.compositor_held = none → sys.swapper.last_posted_buffer ≠ none) ∧
    (∀ sys1, sys.step Call.compositor_acquire = some sys1 →
      sys.swapper.compositor_acquire.1 ≠ none ∧ sys1.compositor_held ≠ none) := by
  have hlatest := run_latest_ne_none calls (System.init A B) sys
    (by simp [System.latest, System.init, BufferSwapperDouble.ctor]) hrun
  obtain ⟨⟨flag, cq, lp⟩, cl, co⟩ := sys
  constructor
  · intro hco
    simp only at hco
    subst hco
    cases lp <;> simp [System.latest] at hlatest ⊢
  · intro sys1 hstep
    cases co <;> cases lp <;>
      simp [System.step, System.latest, BufferSwapperDouble.compositor_acquire] at hstep hlatest ⊢
    subst hstep
    simp

/-- Witness for C23: buffers 0 and 1; the compositor shows buffer 1, the
client posts buffer 0, the compositor returns buffer 1. -/
theorem compositor_acquire_never_empty_witness :
    ((none : BufferPtr) = none → (some 0 : BufferPtr) ≠ none) ∧
    (∀ sys1, System.step ⟨⟨false, some 1, some 0⟩, none, none⟩ Call.compositor_acquire
        = some sys1 →
      (BufferSwapperDouble.compositor_acquire ⟨false, some 1, some 0⟩).1 ≠ none ∧
        sys1.compositor_held ≠ none) :=
  compositor_acquire_never_empty 0 1
    [Call.compositor_acquire, Call.client_acquire, Call.client_release (some 0),
      Call.compositor_release (some 1)]
    ⟨⟨false, some 1, some 0⟩, none, none⟩ (by decide)

/-- C24: the constructor gives `client_queue = buf_a`,
`last_posted_buffer = buf_b`, `compositor_has_consumed = true`; so a
`compositor_acquire` before any `client_release` returns `buf_b`, right after
construction and after any protocol-respecting calls without a
`client_release`; and a `client_release` with no `client_release` before it
completes without waiting. -/
theorem constructor_state :
    (∀ buf_a buf_b : BufferPtr,
      (BufferSwapperDouble.ctor buf_a buf_b).client_queue = buf_a ∧
      (BufferSwapperDouble.ctor buf_a buf_b).last_posted_buffer = buf_b ∧
      (BufferSwapperDouble.ctor buf_a buf_b).compositor_has_consumed = true) ∧
    (∀ buf_a buf_b : BufferPtr,
      (BufferSwapperDouble.ctor buf_a buf_b).compositor_acquire.1 = buf_b) ∧
    (∀ (A B : Buffer) (calls : List Call) (sys sys1 : System),
      System.run calls (System.init A B) = some sys → lastClientRelease calls = none →
      sys.step Call.compositor_acquire = some sys1 →
      sys.swapper.compositor_acquire.1 = some B) ∧
    (∀ (buf_a buf_b p : BufferPtr) (calls : List Call) (rs : List (Option BufferPtr))
      (s : BufferSwapperDouble),
      run calls (BufferSwapperDouble.ctor buf_a buf_b) = some (rs, s) →
      countClientRelease calls = 0 →
      (s.client_release p).isSome = true ∧ Call.enabled (Call.client_release p) s = true) := by
  refine ⟨fun a b => ⟨rfl, rfl, rfl⟩, fun a b => rfl, ?_, ?_⟩
  · intro A B calls sys sys1 hrun hnone hstep
    have hlatest := run_latest calls (System.init A B) sys hrun
    rw [hnone] at hlatest
    obtain ⟨⟨flag, cq, lp⟩, cl, co⟩ := sys
    cases co <;> cases lp <;>
      simp [System.step, System.latest, System.init, BufferSwapperDouble.ctor,
        BufferSwapperDouble.compositor_acquire] at hstep hlatest ⊢
    exact hlatest
  · intro a b p calls rs s hrun hcount
    have hflag := run_keeps_flag_true calls _ rs s hcount rfl hrun
    simp [Call.enabled, Call.exec, BufferSwapperDouble.client_release, hflag]

/-- C25: no deadlock.  In every state reached by protocol-respecting calls from
the swapper constructed with `A` and `B`, the next call of the compositor
completes; and when the next call of the client does not complete, it
completes after the next call of the compositor. -/
theorem swapper_no_deadlock (A B : Buffer) (calls : List Call) (sys : System)
    (hrun : System.run calls (System.init A B) = some sys) :
    (sys.step sys.compositor_next).isSome = true ∧
    (sys.step sys.client_next = none →
      ∃ sys1, sys.step sys.compositor_next = some sys1 ∧
        sys1.client_next = sys.client_next ∧
        (sys1.step sys1.client_next).isSome = true) := by
  have hperm : sys.places.Perm [A, B] :=
    run_places_perm A B calls (System.init A B) sys (by rw [init_places]) hrun
  have hlen := hperm.length_eq
  have hflag := run_flag_posted calls (System.init A B) sys
    (by simp [System.init, BufferSwapperDouble.ctor]) hrun
  obtain ⟨⟨flag, cq, lp⟩, cl, co⟩ := sys
  cases cq <;> cases lp <;> cases cl <;> cases co <;> cases flag <;>
    simp [System.step, System.places, System.client_next, System.compositor_next,
      BufferSwapperDouble.client_acquire, BufferSwapperDouble.client_release,
      BufferSwapperDouble.compositor_acquire, BufferSwapperDouble.compositor_release]
      at hlen hflag ⊢

/-- Witness for C25: buffers 0 and 1; the compositor holds buffer 1, buffer 0
is posted, and the client, holding nothing, waits in `client_acquire`. -/
theorem swapper_no_deadlock_witness :
    (System.step ⟨⟨false, none, some 0⟩, none, some 1⟩
      (System.compositor_next ⟨⟨false, none, some 0⟩, none, some 1⟩)).isSome = true ∧
    (System.step ⟨⟨false, none, some 0⟩, none, some 1⟩
        (System.client_next ⟨⟨false, none, some 0⟩, none, some 1⟩) = none →
      ∃ sys1, System.step ⟨⟨false, none, some 0⟩, none, some 1⟩
          (System.compositor_next ⟨⟨false, none, some 0⟩, none, some 1⟩) = some sys1 ∧
        sys1.client_next = System.client_next ⟨⟨false, none, some 0⟩, none, some 1⟩ ∧
        (sys1.step sys1.client_next).isSome = true) :=
  swapper_no_deadlock 0 1
    [Call.compositor_acquire, Call.client_acquire, Call.client_release (some 0)]
    ⟨⟨false, none, some 0⟩, none, some 1⟩ (by decide)

/-! ## LayerList: rebuild path, construction, frame and bounds -/

/-- The in-place loop keeps the layer type of every wrapper. -/
theorem update_layers_types (ws : List HWCLayer) (rs : List Renderable) (any : Bool)
    (ws1 : List HWCLayer) (any1 : Bool)
    (h : LayerListBase.update_layers ws rs any = some (ws1, any1)) :
    ws1.map HWCLayer.layer_type = ws.map HWCLayer.layer_type := by
  induction rs generalizing ws any ws1 any1 with
  | nil =>
    cases ws <;> simp [LayerListBase.update_layers] at h <;> obtain ⟨rfl, rfl⟩ := h <;> rfl
  | cons r rest ih =>
    cases ws with
    | nil => simp [LayerListBase.update_layers] at h
    | cons w ws =>
      simp only [LayerListBase.update_layers] at h
      cases hrec : LayerListBase.update_layers ws rest (any || ((w.set_render_parameters
          r.screen_position r.alpha_enabled).set_buffer r.buffer).needs_hwc_commit) with
      | none => simp [hrec] at h
      | some p =>
        obtain ⟨ws2, any2⟩ := p
        rw [hrec] at h
        simp only [Option.some.injEq, Prod.mk.injEq] at h
        obtain ⟨rfl, rfl⟩ := h
        simp [ih ws _ ws2 any2 hrec, HWCLayer.set_buffer, HWCLayer.set_render_parameters]

/-- C21: in the rebuild path (wrapper count different from `n`) with at most
`n` renderables the new list has exactly `n` wrappers: wrapper `k` below the
number of renderables is `gl_rendered`, carries renderable `k`'s screen
position, alpha flag and buffer and is linked to index `k` of the current
native list; every later wrapper is a padding wrapper linked to its index and
tagged `skip`. -/
theorem rebuild_wrappers (L : LayerListBase) (n : Nat) (rs : List Renderable)
    (hcount : L.layers.length ≠ n) (hm : rs.length ≤ n) :
    ∃ L1, L.update_representation n rs = some L1 ∧
      L1.layers.length = n ∧
      (∀ (k : Nat) (r : Renderable), rs[k]? = some r →
        ∃ w, L1.layers[k]? = some w ∧
          w.layer_type = LayerType.gl_rendered ∧
          w.screen_position = r.screen_position ∧ w.alpha_enabled = r.alpha_enabled ∧
          w.buffer = some r.buffer ∧
          w.hwc_list = L1.native_list.id ∧ w.layer_index = k) ∧
      (∀ k : Nat, rs.length ≤ k → k < n →
        ∃ w, L1.layers[k]? = some w ∧ w = HWCLayer.ctor L1.native_list.id k ∧
          w.layer_type = LayerType.skip ∧
          w.hwc_list = L1.native_list.id ∧ w.layer_index = k) := by
  obtain ⟨L1, h1, -, hlayers⟩ := update_representation_rebuild L n rs hcount
  refine ⟨L1, h1, ?_, ?_, ?_⟩
  · rw [hlayers, List.length_append, emplace_renderables_length, emplace_padding_length]
    omega
  · intro k r hr
    have hk : k < rs.length := by
      by_contra hk
      rw [List.getElem?_eq_none (by omega)] at hr
      simp at hr
    refine ⟨(HWCLayer.ctor_typed LayerType.gl_rendered r.screen_position r.alpha_enabled
      L1.hwc_representation.id (0 + k)).set_buffer r.buffer, ?_, rfl, rfl, rfl, rfl, rfl, ?_⟩
    · rw [hlayers, List.getElem?_append_left (by rw [emplace_renderables_length]; exact hk),
        emplace_renderables_get _ rs 0 k r hr]
    · simp [HWCLayer.set_buffer, HWCLayer.ctor_typed, HWCLayer.set_render_parameters,
        HWCLayer.set_layer_type, HWCLayer.ctor]
  · intro k hk1 hk2
    refine ⟨HWCLayer.ctor L1.native_list.id k, ?_, rfl, rfl, rfl, rfl⟩
    rw [hlayers, List.getElem?_append_right (by rw [emplace_renderables_length]; exact hk1),
      emplace_renderables_length, emplace_padding_get _ _ _ _ (by omega)]
    simp only [LayerListBase.native_list, Option.some.injEq]
    congr 1
    omega

/-- Witness for C21: a one-wrapper list rebuilt for three entries with two
renderables. -/
theorem rebuild_wrappers_witness :
    ∃ L1, LayerListBase.update_representation
        ⟨generate_hwc_list 0 1, [HWCLayer.ctor 0 0], true, 1⟩ 3
        [⟨⟨0, 0, 4, 4⟩, true, 7⟩, ⟨⟨1, 1, 4, 4⟩, false, 8⟩] = some L1 ∧
      L1.layers.length = 3 ∧
      (∀ (k : Nat) (r : Renderable),
        [(⟨⟨0, 0, 4, 4⟩, true, 7⟩ : Renderable), ⟨⟨1, 1, 4, 4⟩, false, 8⟩][k]? = some r →
        ∃ w, L1.layers[k]? = some w ∧
          w.layer_type = LayerType.gl_rendered ∧
          w.screen_position = r.screen_position ∧ w.alpha_enabled = r.alpha_enabled ∧
          w.buffer = some r.buffer ∧
          w.hwc_list = L1.native_list.id ∧ w.layer_index = k) ∧
      (∀ k : Nat,
        [(⟨⟨0, 0, 4, 4⟩, true, 7⟩ : Renderable), ⟨⟨1, 1, 4, 4⟩, false, 8⟩].length ≤ k →
        k < 3 →
        ∃ w, L1.layers[k]? = some w ∧ w = HWCLayer.ctor L1.native_list.id k ∧
          w.layer_type = LayerType.skip ∧
          w.hwc_list = L1.native_list.id ∧ w.layer_index = k) :=
  rebuild_wrappers ⟨generate_hwc_list 0 1, [HWCLayer.ctor 0 0], true, 1⟩ 3
    [⟨⟨0, 0, 4, 4⟩, true, 7⟩, ⟨⟨1, 1, 4, 4⟩, false, 8⟩] (by decide) (by decide)

/-- C26: right after `LayerListBase(n)` with `n >= 1`, and right after
`LayerList()`, `list_has_changed()` is true (the update of the constructor
rebuilds from an empty wrapper list); after `LayerListBase(0)` it is false
(the update runs in place on the empty list). -/
theorem list_has_changed_after_construction :
    (∀ n : Nat, 1 ≤ n →
      ∃ L, LayerListBase.ctor n = some L ∧ L.list_has_changed = true ∧
        L.layers.length = n) ∧
    (∃ L, LayerList.ctor = some L ∧ L.list_has_changed = true) ∧
    (∃ L, LayerListBase.ctor 0 = some L ∧ L.list_has_changed = false ∧ L.layers = []) := by
  refine ⟨?_, ⟨⟨generate_hwc_list 0 1, [HWCLayer.ctor 0 0], true, 1⟩, by decide, rfl⟩,
    ⟨⟨generate_hwc_list 0 0, [], false, 1⟩, by decide, rfl, rfl⟩⟩
  intro n hn
  obtain ⟨L1, h1, h2, hlayers⟩ := update_representation_rebuild
    ⟨generate_hwc_list 0 n, [], false, 1⟩ n [] (by simp; omega)
  refine ⟨L1, h1, h2, ?_⟩
  rw [hlayers, List.length_append, emplace_renderables_length, emplace_padding_length]
  simp

/-- C27: a completed in-place update (wrapper count equal to `n`) keeps the
number of wrappers, the layer type of every wrapper and every wrapper at a
position from the number of renderables on.  On a fresh `LayerList`,
`update_representation(1, [r])` keeps the native list and the single wrapper
stays tagged `skip`; `list_has_changed()` is then that wrapper's
`needs_hwc_commit()`. -/
theorem in_place_update_frame :
    (∀ (L L1 : LayerListBase) (n : Nat) (rs : List Renderable),
      L.layers.length = n → L.update_representation n rs = some L1 →
      L1.layers.length = L.layers.length ∧
      L1.layers.map HWCLayer.layer_type = L.layers.map HWCLayer.layer_type ∧
      (∀ k : Nat, rs.length ≤ k → L1.layers[k]? = L.layers[k]?)) ∧
    (∀ r : Renderable, ∃ (L L1 : LayerListBase) (w : HWCLayer),
      LayerList.ctor = some L ∧ L.update_representation 1 [r] = some L1 ∧
      L1.native_list = L.native_list ∧
      L1.layers = [w] ∧ w.layer_type = LayerType.skip ∧
      w = ((HWCLayer.ctor 0 0).set_render_parameters r.screen_position
        r.alpha_enabled).set_buffer r.buffer ∧
      L1.list_has_changed = w.needs_hwc_commit) := by
  constructor
  · intro L L1 n rs hsize h
    have hu := (update_representation_in_place L n rs hsize).2 L1 h
    obtain ⟨hlen, -, hrest, -⟩ := update_layers_spec L.layers rs false _ _ hu
    exact ⟨hlen, update_layers_types L.layers rs false _ _ hu, hrest⟩
  · intro r
    refine ⟨⟨generate_hwc_list 0 1, [HWCLayer.ctor 0 0], true, 1⟩,
      ⟨generate_hwc_list 0 1, [((HWCLayer.ctor 0 0).set_render_parameters r.screen_position
        r.alpha_enabled).set_buffer r.buffer], ((HWCLayer.ctor 0 0).set_render_parameters
          r.screen_position r.alpha_enabled).set_buffer r.buffer |>.needs_hwc_commit, 1⟩,
      _, by decide, ?_, rfl, rfl, rfl, rfl, rfl⟩
    simp [LayerListBase.update_representation, LayerListBase.update_layers, generate_hwc_list]

/-- C28: the rebuild path leaves `max(needed_size, number of renderables)`
wrappers.  With more renderables than `needed_size` the wrapper list is longer
than the native list and its last wrapper is linked to an index that is not
below `numHwLayers`; a following update with `needed_size` equal to that
wrapper count allocates a new native list and leaves every wrapper linked as
it was.  On a fresh `LayerList` with `needed_size` 2 and three renderables the
old list has `id` 1 and the new one `id` 2. -/
theorem rebuild_wrapper_count :
    (∀ (L : LayerListBase) (n : Nat) (rs : List Renderable), L.layers.length ≠ n →
      ∃ L1, L.update_representation n rs = some L1 ∧
        L1.layers.length = max n rs.length) ∧
    (∀ (L : LayerListBase) (n : Nat) (rs : List Renderable), L.layers.length ≠ n →
      n < rs.length →
      ∃ L1, L.update_representation n rs = some L1 ∧
        L1.native_list.numHwLayers < L1.layers.length ∧
        (∃ w, L1.layers[rs.length - 1]? = some w ∧ w.hwc_list = L1.native_list.id ∧
          L1.native_list.numHwLayers ≤ w.layer_index) ∧
        ∀ rs2 : List Renderable, rs2.length ≤ L1.layers.length →
          ∃ L2, L1.update_representation L1.layers.length rs2 = some L2 ∧
            L2.native_list = generate_hwc_list L1.allocations L1.layers.length ∧
            L2.allocations = L1.allocations + 1 ∧
            L2.layers.map (fun w => (w.hwc_list, w.layer_index)) =
              L1.layers.map (fun w => (w.hwc_list, w.layer_index))) ∧
    (LayerList.ctor.bind fun L =>
      (L.update_representation 2
        [⟨⟨0, 0, 4, 4⟩, true, 7⟩, ⟨⟨1, 1, 4, 4⟩, false, 8⟩, ⟨⟨2, 2, 4, 4⟩, false, 9⟩]).bind
      fun L1 =>
        (L1.update_representation 3
          [⟨⟨0, 0, 4, 4⟩, true, 7⟩, ⟨⟨1, 1, 4, 4⟩, false, 8⟩, ⟨⟨2, 2, 4, 4⟩, false, 9⟩]).map
        fun L2 => (L1.native_list.id, L1.layers.map HWCLayer.layer_index, L2.native_list.id,
          L2.layers.map HWCLayer.hwc_list)) =
      some (1, [0, 1, 2], 2, [1, 1, 1]) := by
  have hcount : ∀ (L : LayerListBase) (n : Nat) (rs : List Renderable), L.layers.length ≠ n →
      ∃ L1, L.update_representation n rs = some L1 ∧
        L1.layers.length = max n rs.length ∧
        L1.layers =
          LayerListBase.emplace_renderables L1.hwc_representation.id rs 0 ++
            LayerListBase.emplace_padding L1.hwc_representation.id (n - rs.length)
              rs.length := by
    intro L n rs h
    obtain ⟨L1, h1, -, hlayers⟩ := update_representation_rebuild L n rs h
    refine ⟨L1, h1, ?_, hlayers⟩
    rw [hlayers, List.length_append, emplace_renderables_length, emplace_padding_length]
    omega
  refine ⟨fun L n rs h => ?_, ?_, by decide⟩
  · obtain ⟨L1, h1, h2, -⟩ := hcount L n rs h
    exact ⟨L1, h1, h2⟩
  · intro L n rs h hlt
    obtain ⟨L1, h1, hlen, hlayers⟩ := hcount L n rs h
    have hnum := update_representation_numHwLayers L L1 n rs h1
    have hlen1 : L1.layers.length = rs.length := by rw [hlen]; omega
    refine ⟨L1, h1, ?_, ?_, ?_⟩
    · simp only [LayerListBase.native_list, hnum, hlen1]
      exact hlt
    · obtain ⟨r, hr⟩ : ∃ r, rs[rs.length - 1]? = some r :=
        ⟨rs[rs.length - 1], List.getElem?_eq_getElem (by omega)⟩
      refine ⟨(HWCLayer.ctor_typed LayerType.gl_rendered r.screen_position r.alpha_enabled
        L1.hwc_representation.id (0 + (rs.length - 1))).set_buffer r.buffer, ?_, rfl, ?_⟩
      · rw [hlayers, List.getElem?_append_left (by rw [emplace_renderables_length]; omega),
          emplace_renderables_get _ rs 0 _ r hr]
      · simp only [LayerListBase.native_list, hnum, HWCLayer.set_buffer, HWCLayer.ctor_typed,
          HWCLayer.set_render_parameters, HWCLayer.set_layer_type, HWCLayer.ctor]
        omega
    · intro rs2 hrs2
      obtain ⟨hsome, hloop⟩ := update_representation_in_place L1 L1.layers.length rs2 rfl
      obtain ⟨L2, h2⟩ := Option.isSome_iff_exists.mp (hsome.mpr hrs2)
      obtain ⟨hnat, halloc⟩ := update_representation_native L1 L2 _ rs2 h2
      have hne : L1.hwc_representation.numHwLayers ≠ L1.layers.length := by
        rw [hnum, hlen1]; omega
      simp only [hne, ne_eq, not_false_eq_true, if_true] at hnat halloc
      exact ⟨L2, h2, hnat, halloc, update_layers_links L1.layers rs2 false _ _ (hloop L2 h2)⟩

/-- C29: with at most `needed_size` renderables the update completes (in the
in-place path the iterator is never dereferenced at the end of `layers`), and
in the rebuild path every wrapper is linked to an index below `needed_size`,
which is the number of entries of the current native list. -/
theorem update_within_bounds (L : LayerListBase) (n : Nat) (rs : List Renderable)
    (hm : rs.length ≤ n) :
    (L.update_representation n rs).isSome = true ∧
    (L.layers.length = n →
      (LayerListBase.update_layers L.layers rs false).isSome = true) ∧
    ∀ L1, L.update_representation n rs = some L1 → L.layers.length ≠ n →
      L1.native_list.numHwLayers = n ∧
      ∀ w ∈ L1.layers, w.hwc_list = L1.native_list.id ∧ w.layer_index < n := by
  refine ⟨update_representation_isSome L n rs (Or.inr hm), ?_, ?_⟩
  · intro hs
    exact (update_layers_isSome L.layers rs false).mpr (by rw [hs]; exact hm)
  · intro L1 h1 hs
    have hnum := update_representation_numHwLayers L L1 n rs h1
    refine ⟨hnum, ?_⟩
    obtain ⟨L2, h2, -, hlayers⟩ := update_representation_rebuild L n rs hs
    rw [h1] at h2
    simp only [Option.some.injEq] at h2
    subst h2
    intro w hw
    have hmem : (w.hwc_list, w.layer_index) ∈
        L1.layers.map (fun w => (w.hwc_list, w.layer_index)) :=
      List.mem_map_of_mem (fun w => (w.hwc_list, w.layer_index)) hw
    rw [hlayers, List.map_append, emplace_renderables_links, emplace_padding_links,
      List.mem_append] at hmem
    simp only [List.mem_map, List.mem_range', Prod.mk.injEq] at hmem
    rcases hmem with ⟨k, ⟨i, hi, rfl⟩, h3, h4⟩ | ⟨k, ⟨i, hi, rfl⟩, h3, h4⟩
    · exact ⟨h3.symm, by omega⟩
    · exact ⟨h3.symm, by omega⟩

/-- Witness for C29: a one-wrapper list updated for three entries with two
renderables. -/
theorem update_within_bounds_witness :
    (LayerListBase.update_representation
      ⟨generate_hwc_list 0 1, [HWCLayer.ctor 0 0], true, 1⟩ 3
      [⟨⟨0, 0, 4, 4⟩, true, 7⟩, ⟨⟨1, 1, 4, 4⟩, false, 8⟩]).isSome = true ∧
    ([HWCLayer.ctor 0 0].length = 3 →
      (LayerListBase.update_layers [HWCLayer.ctor 0 0]
        [⟨⟨0, 0, 4, 4⟩, true, 7⟩, ⟨⟨1, 1, 4, 4⟩, false, 8⟩] false).isSome = true) ∧
    ∀ L1, LayerListBase.update_representation
        ⟨generate_hwc_list 0 1, [HWCLayer.ctor 0 0], true, 1⟩ 3
        [⟨⟨0, 0, 4, 4⟩, true, 7⟩, ⟨⟨1, 1, 4, 4⟩, false, 8⟩] = some L1 →
      [HWCLayer.ctor 0 0].length ≠ 3 →
      L1.native_list.numHwLayers = 3 ∧
      ∀ w ∈ L1.layers, w.hwc_list = L1.native_list.id ∧ w.layer_index < 3 :=
  update_within_bounds ⟨generate_hwc_list 0 1, [HWCLayer.ctor 0 0], true, 1⟩ 3
    [⟨⟨0, 0, 4, 4⟩, true, 7⟩, ⟨⟨1, 1, 4, 4⟩, false, 8⟩] (by decide)

/-! ## Size of the native list -/

/-- C22: the byte size requested for a native list of `n` entries is
`sizeof(header) + n * sizeof(entry)` modulo `2^w`; where this does not wrap it
is the exact sum, at least the header size, strictly increasing in `n` (an
entry has a positive size), and entries `0..n-1` end inside the allocation. -/
theorem struct_size_arithmetic :
    (∀ w header entry n : Nat,
      struct_size w header entry n = (header + entry * n) % 2 ^ w) ∧
    (∀ w header entry n : Nat, header + entry * n < 2 ^ w →
      struct_size w header entry n = header + entry * n ∧
      header ≤ struct_size w header entry n) ∧
    (∀ w header entry n1 n2 : Nat, 0 < entry → n1 < n2 → header + entry * n2 < 2 ^ w →
      struct_size w header entry n1 < struct_size w header entry n2) ∧
    (∀ w header entry n k : Nat, header + entry * n < 2 ^ w → k < n →
      header + entry * (k + 1) ≤ struct_size w header entry n) := by
  have hmod : ∀ w header entry n : Nat,
      struct_size w header entry n = (header + entry * n) % 2 ^ w := by
    intro w header entry n
    unfold struct_size
    rw [Nat.add_mod_mod]
  have hexact : ∀ w header entry n : Nat, header + entry * n < 2 ^ w →
      struct_size w header entry n = header + entry * n := by
    intro w header entry n h
    rw [hmod, Nat.mod_eq_of_lt h]
  refine ⟨hmod, ?_, ?_, ?_⟩
  · intro w header entry n h
    rw [hexact w header entry n h]
    exact ⟨rfl, Nat.le_add_right _ _⟩
  · intro w header entry n1 n2 he hn h
    have h12 : entry * n1 < entry * n2 := Nat.mul_lt_mul_of_pos_left hn he
    rw [hexact w header entry n2 h, hexact w header entry n1 (by omega)]
    omega
  · intro w header entry n k h hk
    have hle : entry * (k + 1) ≤ entry * n := Nat.mul_le_mul_left entry hk
    rw [hexact w header entry n h]
    omega

/-! ## DrawPatternCheckered -/

/-- The inner loop of `draw` with a non-zero stride: the pixels of column `i`
in rows below `count` hold the pattern, every other pixel is untouched. -/
theorem draw_inner_spec (p : DrawPatternCheckered) (ps : Int) (i count : Nat)
    (pixel : PixelMemory) (hps : ps ≠ 0) :
    (∀ j : Nat, j < count →
      p.draw_inner ps i count pixel ((j : Int) * ps + (i : Int)) =
        p.color_pattern (i % p.Rows) (j % p.Cols)) ∧
    (∀ a : Int, (∀ j : Nat, j < count → a ≠ (j : Int) * ps + (i : Int)) →
      p.draw_inner ps i count pixel a = pixel a) := by
  induction count with
  | zero => exact ⟨fun j hj => absurd hj (Nat.not_lt_zero j), fun a _ => rfl⟩
  | succ c ih =>
    obtain ⟨ih1, ih2⟩ := ih
    constructor
    · intro j hj
      simp only [DrawPatternCheckered.draw_inner]
      by_cases hjc : j = c
      · subst hjc
        rw [Function.update_same]
      · have hne : (j : Int) * ps + (i : Int) ≠ (c : Int) * ps + (i : Int) := by
          intro heq
          have h1 : (j : Int) * ps = (c : Int) * ps := by omega
          have h2 : (j : Int) = (c : Int) := Int.eq_of_mul_eq_mul_right hps h1
          exact hjc (by exact_mod_cast h2)
        rw [Function.update_noteq hne]
        exact ih1 j (by omega)
    · intro a ha
      simp only [DrawPatternCheckered.draw_inner]
      rw [Function.update_noteq (ha c (Nat.lt_succ_self c))]
      exact ih2 a (fun j hj => ha j (by omega))

/-- The loops of `draw` with at most `pixel_stride` columns: pixel `(i, j)`
holds `color_pattern[i % Rows][j % Cols]` for every column `i` below `count`
and every row `j` below `height`. -/
theorem draw_outer_spec (p : DrawPatternCheckered) (ps : Int) (height count : Nat)
    (pixel : PixelMemory) (hcount : count ≠ 0 → (count : Int) ≤ ps) :
    ∀ i j : Nat, i < count → j < height →
      p.draw_outer ps height count pixel ((j : Int) * ps + (i : Int)) =
        p.color_pattern (i % p.Rows) (j % p.Cols) := by
  induction count with
  | zero => exact fun i j hi _ => absurd hi (Nat.not_lt_zero i)
  | succ c ih =>
    have hc : ((c : Int) + 1) ≤ ps := by
      have := hcount (Nat.succ_ne_zero c)
      push_cast at this
      exact this
    have hps : ps ≠ 0 := by omega
    intro i j hi hj
    simp only [DrawPatternCheckered.draw_outer]
    obtain ⟨h1, h2⟩ := draw_inner_spec p ps c height
      (p.draw_outer ps height c pixel) hps
    by_cases hic : i = c
    · subst hic
      exact h1 j hj
    · have hi1 : i < c := by omega
      rw [h2]
      · exact ih (fun _ => by omega) i j hi1 hj
      · intro j1 _ heq
        have e1 : ((j : Int) * ps + (i : Int)) % ps = (i : Int) := by
          rw [Int.add_comm, Int.add_mul_emod_self]
          exact Int.emod_eq_of_lt (by omega) (by omega)
        have e2 : ((j1 : Int) * ps + (c : Int)) % ps = (c : Int) := by
          rw [Int.add_comm, Int.add_mul_emod_self]
          exact Int.emod_eq_of_lt (by omega) (by omega)
        rw [heq, e2] at e1
        omega

/-- The inner loop of `check` is true exactly when the pixels of column `i` in
rows below `count` hold the pattern. -/
theorem check_inner_iff (p : DrawPatternCheckered) (ps : Int) (i count : Nat)
    (pixel : PixelMemory) :
    p.check_inner ps i count pixel = true ↔
      ∀ j : Nat, j < count →
        pixel ((j : Int) * ps + (i : Int)) = p.color_pattern (i % p.Rows) (j % p.Cols) := by
  induction count with
  | zero => simp [DrawPatternCheckered.check_inner]
  | succ c ih =>
    simp only [DrawPatternCheckered.check_inner, Bool.and_eq_true, decide_eq_true_eq, ih]
    constructor
    · rintro ⟨h1, h2⟩ j hj
      by_cases hjc : j = c
      · subst hjc
        exact h2
      · exact h1 j (by omega)
    · intro h
      exact ⟨fun j hj => h j (by omega), h c (Nat.lt_succ_self c)⟩

/-- The loops of `check` are true exactly when every pixel `(i, j)` with
column `i` below `count` and row `j` below `height` holds the pattern. -/
theorem check_outer_iff (p : DrawPatternCheckered) (ps : Int) (height count : Nat)
    (pixel : PixelMemory) :
    p.check_outer ps height count pixel = true ↔
      ∀ i j : Nat, i < count → j < height →
        pixel ((j : Int) * ps + (i : Int)) = p.color_pattern (i % p.Rows) (j % p.Cols) := by
  induction count with
  | zero => simp [DrawPatternCheckered.check_outer]
  | succ c ih =>
    simp only [DrawPatternCheckered.check_outer, Bool.and_eq_true, ih, check_inner_iff]
    constructor
    · rintro ⟨h1, h2⟩ i j hi hj
      by_cases hic : i = c
      · subst hic
        exact h2 j hj
      · exact h1 i j (by omega) hj
    · intro h
      exact ⟨fun i j hi hj => h i j (by omega) hj, fun j hj => h c j (Nat.lt_succ_self c) hj⟩

/-- C30: for a region of format `abgr_8888` whose stride in pixels
(`stride / 4`) is at least its width, `draw` completes, pixel `(x = i, y = j)`
then holds `color_pattern[i % Rows][j % Cols]`, and `check` on the drawn
pixels returns true; `draw` and `check` throw `runtime_error` exactly when the
format is not `abgr_8888`, and then `draw` leaves the pixels as they were. -/
theorem draw_then_check (p : DrawPatternCheckered) (region : MirGraphicsRegion)
    (pixel : PixelMemory) :
    (region.pixel_format = MirPixelFormat.mir_pixel_format_abgr_8888 →
      region.width ≤ Int.tdiv region.stride 4 →
      (p.draw region pixel).1 = Except.ok () ∧
      p.check region (p.draw region pixel).2 = Except.ok true ∧
      ∀ i j : Nat, (i : Int) < region.width → (j : Int) < region.height →
        (p.draw region pixel).2 ((j : Int) * Int.tdiv region.stride 4 + (i : Int)) =
          p.color_pattern (i % p.Rows) (j % p.Cols)) ∧
    ((p.draw region pixel).1 = Except.error Exception.runtime_error ↔
      region.pixel_format ≠ MirPixelFormat.mir_pixel_format_abgr_8888) ∧
    (p.check region pixel = Except.error Exception.runtime_error ↔
      region.pixel_format ≠ MirPixelFormat.mir_pixel_format_abgr_8888) ∧
    (region.pixel_format ≠ MirPixelFormat.mir_pixel_format_abgr_8888 →
      (p.draw region pixel).2 = pixel) := by
  refine ⟨?_, ?_, ?_, ?_⟩
  · intro hfmt hstride
    have hspec := draw_outer_spec p (Int.tdiv region.stride 4) region.height.toNat
      region.width.toNat pixel (by
        intro h0
        have : 0 < region.width := by
          by_contra hneg
          exact h0 (Int.toNat_eq_zero.mpr (by omega))
        rw [Int.toNat_of_nonneg (by omega)]
        exact hstride)
    have hdraw : (p.draw region pixel).2 =
        p.draw_outer (Int.tdiv region.stride 4) region.height.toNat region.width.toNat
          pixel := by
      simp [DrawPatternCheckered.draw, hfmt, bytes_per_pixel_abgr_8888]
    refine ⟨by simp [DrawPatternCheckered.draw, hfmt], ?_, ?_⟩
    · simp only [DrawPatternCheckered.check, hfmt, ne_eq, not_true_eq_false, if_false,
        bytes_per_pixel_abgr_8888]
      rw [hdraw]
      congr 1
      exact (check_outer_iff p _ _ _ _).mpr hspec
    · intro i j hi hj
      rw [hdraw]
      exact hspec i j (by omega) (by omega)
  · by_cases hfmt : region.pixel_format = MirPixelFormat.mir_pixel_format_abgr_8888 <;>
      simp [DrawPatternCheckered.draw, hfmt]
  · by_cases hfmt : region.pixel_format = MirPixelFormat.mir_pixel_format_abgr_8888 <;>
      simp [DrawPatternCheckered.check, hfmt]
  · intro hfmt
    simp [DrawPatternCheckered.draw, hfmt]
